import Mathlib

/-!
Verification of the volleyball video-analysis core: a shallow embedding of
the tracker, trajectory features, event segmenter, team calibration and
pipeline progress/calibration logic, with theorems settling the spec's
claims about them.

Numeric values (coordinates, timestamps, confidences) are embedded as
rationals; the one genuinely real-valued quantity (the Euclidean norm used
by the trajectory speed feature, `np.sqrt` in the source) is embedded over
the reals.

Python `dict`s are insertion-ordered, so they are embedded as association
lists; `Counter` likewise (first-seen key order).
-/

namespace VideoML

/-- Bounding-box detection record (`detector.Detection`): corners, model
confidence and COCO class id. -/
structure Detection where
  x1 : ℚ
  y1 : ℚ
  x2 : ℚ
  y2 : ℚ
  confidence : ℚ
  class_id : ℤ
deriving DecidableEq

/-- Box width (`Detection.w`). -/
def Detection.w (d : Detection) : ℚ := d.x2 - d.x1

/-- Box height (`Detection.h`). -/
def Detection.h (d : Detection) : ℚ := d.y2 - d.y1

/-- Box area (`Detection.area`). -/
def Detection.area (d : Detection) : ℚ := d.w * d.h

/-- Box center x (`Detection.cx`). -/
def Detection.cx (d : Detection) : ℚ := (d.x1 + d.x2) / 2

/-- Box center y (`Detection.cy`). -/
def Detection.cy (d : Detection) : ℚ := (d.y1 + d.y2) / 2

/-- Intersection-over-union of two boxes (`SimpleTracker._iou`): the
clamped overlap rectangle's area over the union area, with the source's
early return 0 when the overlap is empty and its guard against a
non-positive union. -/
def SimpleTracker.iou (a b : Detection) : ℚ :=
  let ix1 := max a.x1 b.x1
  let iy1 := max a.y1 b.y1
  let ix2 := min a.x2 b.x2
  let iy2 := min a.y2 b.y2
  let inter := max 0 (ix2 - ix1) * max 0 (iy2 - iy1)
  if inter = 0 then 0
  else
    let union := a.area + b.area - inter
    if 0 < union then inter / union else 0

/-- A proper (non-degenerate) box: positive width and height. -/
def Detection.proper (d : Detection) : Prop := d.x1 < d.x2 ∧ d.y1 < d.y2

instance (d : Detection) : Decidable d.proper := by
  unfold Detection.proper; infer_instance

/-- Two boxes are disjoint when their closed rectangles overlap in at most
a line: the overlap extent is non-positive on some axis. -/
def boxDisjoint (a b : Detection) : Prop :=
  min a.x2 b.x2 ≤ max a.x1 b.x1 ∨ min a.y2 b.y2 ≤ max a.y1 b.y1

instance (a b : Detection) : Decidable (boxDisjoint a b) := by
  unfold boxDisjoint; infer_instance

/-- A concrete proper box used to instantiate theorems. -/
def boxA : Detection := ⟨0, 0, 10, 10, 1, 0⟩

/-- A concrete box far away from `boxA`. -/
def boxFar : Detection := ⟨20, 20, 30, 30, 1, 0⟩

/-- A degenerate (zero-area) box. -/
def boxDeg : Detection := ⟨0, 0, 0, 0, 1, 0⟩

/-- Euclidean distance between two trajectory samples `(cx, cy, frame)`
(the `np.sqrt(dx**2 + dy**2)` of `BallTrajectory.speed`). -/
noncomputable def eucDist (p q : ℚ × ℚ × ℕ) : ℝ :=
  Real.sqrt (((q.1 - p.1 : ℚ) : ℝ) ^ 2 + ((q.2.1 - p.2.1 : ℚ) : ℝ) ^ 2)

/-- The list of per-pair displacements accumulated by the loop in
`BallTrajectory.speed`: `for i in range(max(0, len(pts)-5), len(pts)-1)`.
Natural-number subtraction truncates at zero, matching Python's
`max(0, len(pts)-5)`, and `range(a, b)` is `List.range' a (b - a)`. -/
noncomputable def BallTrajectory.speedTerms (pts : List (ℚ × ℚ × ℕ)) : List ℝ :=
  (List.range' (pts.length - 5) (pts.length - 1 - (pts.length - 5))).map
    (fun i => eucDist (pts.getD i (0, 0, 0)) (pts.getD (i + 1) (0, 0, 0)))

/-- Embeds `BallTrajectory.speed`: 0 for fewer than 2 samples, otherwise the mean
of the accumulated displacements (`np.mean`), with the source's guard
returning 0 for an empty accumulator. -/
noncomputable def BallTrajectory.speed (pts : List (ℚ × ℚ × ℕ)) : ℝ :=
  if pts.length < 2 then 0
  else if BallTrajectory.speedTerms pts = [] then 0
  else (BallTrajectory.speedTerms pts).sum / (BallTrajectory.speedTerms pts).length

/-- Consecutive-pair displacements among the last `w` samples of a
trajectory (pairing each of those samples with its successor). -/
noncomputable def lastWindowDists (w : ℕ) (pts : List (ℚ × ℚ × ℕ)) : List ℝ :=
  ((pts.drop (pts.length - w)).zip (pts.drop (pts.length - w)).tail).map
    (fun pq => eucDist pq.1 pq.2)

/-- The speed the claim describes: mean Euclidean displacement over the
last up to 5 consecutive sample pairs (min(5, n-1) pairs, i.e. pairs among
the last 6 samples), 0 for fewer than 2 samples. Stated from the claim's
words, to be compared against the source's `BallTrajectory.speed`. -/
noncomputable def speedClaimed (pts : List (ℚ × ℚ × ℕ)) : ℝ :=
  if pts.length < 2 then 0
  else (lastWindowDists 6 pts).sum / (lastWindowDists 6 pts).length

/-- A six-sample trajectory on which the source speed and the claimed
speed differ: displacements 1,1,1,1,100; the source averages the last 4,
the claim the last 5. -/
def pts6 : List (ℚ × ℚ × ℕ) :=
  [(0, 0, 0), (1, 0, 1), (2, 0, 2), (3, 0, 3), (4, 0, 4), (104, 0, 5)]

/-- A two-sample trajectory with displacement 5 (a 3-4-5 triangle). -/
def pts2 : List (ℚ × ℚ × ℕ) := [(0, 0, 0), (3, 4, 1)]

/-- Action categories (`ActionType`). -/
inductive ActionType where
  | serve
  | pass
  | set
  | attack
  | block
  | dig
  | other
deriving DecidableEq

/-- Per-frame classifier output (`ActionPrediction`). -/
structure ActionPrediction where
  action : ActionType
  confidence : ℚ
  description : String
deriving DecidableEq

/-- A committed event record: the dict appended to `EventSegmenter.events`. -/
structure Event where
  action_type : ActionType
  start_frame : ℕ
  end_frame : ℕ
  start_time : ℚ
  end_time : ℚ
  confidence : ℚ
  description : String
deriving DecidableEq

/-- State of `EventSegmenter`. The source's `_buffer` field is written in
`__init__` and never read, so it is omitted. -/
structure EventSegmenter where
  events : List Event
  current_action : ActionType
  start_frame : ℕ
  start_time : ℚ
  stable_count : ℕ
deriving DecidableEq

/-- Embeds `EventSegmenter.__init__`. -/
def EventSegmenter.init : EventSegmenter :=
  { events := [], current_action := .other, start_frame := 0, start_time := 0,
    stable_count := 0 }

/-- Embeds `EventSegmenter.MIN_STABLE_FRAMES`. -/
def EventSegmenter.MIN_STABLE_FRAMES : ℕ := 8

/-- Embeds `EventSegmenter.MIN_EVENT_DURATION` (0.3 seconds). -/
def EventSegmenter.MIN_EVENT_DURATION : ℚ := 3 / 10

/-- Embeds `EventSegmenter.update`: same action increments the stability counter;
a differing action commits the ending run when it was stable long enough,
lasted at least the minimum duration and is not OTHER (the committed event
takes its confidence and description from the incoming prediction), then
resets the run state to the new action. -/
def EventSegmenter.update (st : EventSegmenter) (prediction : ActionPrediction)
    (frame_number : ℕ) (timestamp : ℚ) : EventSegmenter :=
  if prediction.action = st.current_action then
    { st with stable_count := st.stable_count + 1 }
  else
    let events' :=
      if EventSegmenter.MIN_STABLE_FRAMES ≤ st.stable_count then
        if EventSegmenter.MIN_EVENT_DURATION ≤ timestamp - st.start_time ∧
            st.current_action ≠ ActionType.other then
          st.events ++
            [{ action_type := st.current_action, start_frame := st.start_frame,
               end_frame := frame_number, start_time := st.start_time,
               end_time := timestamp, confidence := prediction.confidence,
               description := prediction.description }]
        else st.events
      else st.events
    { events := events', current_action := prediction.action,
      start_frame := frame_number, start_time := timestamp, stable_count := 1 }

/-- Embeds `EventSegmenter.flush`: commit the still-open run when it was stable
long enough and is not OTHER, with fixed confidence 0.6 and the fixed
description "Last event (flush)". There is no duration condition. -/
def EventSegmenter.flush (st : EventSegmenter) (final_frame : ℕ)
    (final_time : ℚ) : EventSegmenter :=
  if EventSegmenter.MIN_STABLE_FRAMES ≤ st.stable_count ∧
      st.current_action ≠ ActionType.other then
    { st with events := st.events ++
        [{ action_type := st.current_action, start_frame := st.start_frame,
           end_frame := final_frame, start_time := st.start_time,
           end_time := final_time, confidence := 3 / 5,
           description := "Last event (flush)" }] }
  else st

/-- A fixed SET prediction, as the classifier's SET rule emits. -/
def predSet : ActionPrediction := ⟨.set, 37 / 50, "Slow upward arc"⟩

/-- Segmenter state after eight consecutive SET predictions at 100 fps
(timestamps i/100): a stable run of 8 frames spanning only 0.07 seconds. -/
def segC2 : EventSegmenter :=
  (List.range 8).foldl
    (fun st i => EventSegmenter.update st predSet i ((i : ℚ) / 100))
    EventSegmenter.init

/-- Stable descending-by-frequency sort of the color count items:
Python's `sorted(color_counts.items(), key=lambda x: x[1], reverse=True)`
(`sorted` is stable, as is `List.mergeSort`). -/
def sortByCountDesc (l : List (String × ℕ)) : List (String × ℕ) :=
  l.mergeSort (fun a b => decide (b.2 ≤ a.2))

/-- Embeds `VolleyballDetector.calibrate_teams`: rank colors by frequency, keep
the top two non-"unknown" colors, and map them to team_a and team_b; with
exactly one non-unknown color observed only team_a is assigned; otherwise
`team_colors` is returned unchanged (it is empty at construction). -/
def calibrate_teams (color_counts : List (String × ℕ))
    (team_colors : List (String × String)) : List (String × String) :=
  let sorted_colors := sortByCountDesc color_counts
  let top2 := ((sorted_colors.filter (fun p => p.1 ≠ "unknown")).map Prod.fst).take 2
  match top2 with
  | [c0, c1] => [(c0, "team_a"), (c1, "team_b")]
  | [c0] => [(c0, "team_a")]
  | _ => team_colors

/-- Scenario C frequency counts. -/
def sceneCounts : List (String × ℕ) := [("red", 40), ("blue", 35), ("white", 5)]

/-- The sequence of fractions delivered to the progress callback over one
`process_video` run that reads `n` frames of a video whose metadata frame
count is `total`: one call at every 30th frame (`frame_number % 30 == 0`
after the increment), value `min(frame_number / max(total_frames, 1),
0.92)`; then 0.94 once the loop and flush are done; then 1.0 after the
re-encode step (emitted on both the success and the fallback path). -/
def progressLoopValues (total n : ℕ) : List ℚ :=
  (((List.range n).map (fun i : ℕ => i + 1)).filter (fun fn => fn % 30 = 0)).map
    (fun fn : ℕ => min ((fn : ℚ) / ((max total 1 : ℕ) : ℚ)) (23 / 25))

/-- All callback deliveries of one run: the in-loop values, then 0.94,
then the final 1.0. -/
def progressValues (total n : ℕ) : List ℚ :=
  progressLoopValues total n ++ [47 / 50, 1]

/-- Python's `int()` applied to a rational: truncation toward zero
(integer division of numerator by denominator truncates toward zero). -/
def pyInt (q : ℚ) : ℤ := q.num / (q.den : ℤ)

/-- Insertion-ordered counter increment (`Counter[color] += 1`; Python
dicts append unseen keys in insertion order). -/
def bumpCount (counter : List (String × ℕ)) (color : String) : List (String × ℕ) :=
  match counter with
  | [] => [(color, 1)]
  | (c, n) :: rest =>
    if c = color then (c, n + 1) :: rest else (c, n) :: bumpCount rest color

/-- Calibration-relevant state threaded through the `process_video` frame
loop: the jersey-color counter, the `calibrated` flag, the detector's
`team_colors` mapping, and a count of `calibrate_teams` calls (used to
state that calibration never happens). -/
structure CalibState where
  color_counter : List (String × ℕ)
  calibrated : Bool
  team_colors : List (String × String)
  calib_calls : ℕ

/-- The calibration state at the start of `process_video`: empty counter,
not calibrated, empty team mapping. -/
def CalibState.init : CalibState :=
  { color_counter := [], calibrated := false, team_colors := [], calib_calls := 0 }

/-- The calibration-relevant work of one processed frame: the detector
labels each player from the mapping as it is entering the frame
(`team_colors.get(color, "unknown")`); then, during the calibration
window, non-unknown colors are counted; on the first processed frame at or
past the window, `calibrate_teams` runs exactly once. Returns the updated
state and this frame's team labels. -/
def calibStep (calib_frames : ℤ) (st : CalibState) (fn : ℕ)
    (colors : List String) : CalibState × List String :=
  let labels := colors.map (fun c => (st.team_colors.lookup c).getD "unknown")
  if (fn : ℤ) < calib_frames then
    ({ st with color_counter :=
        (colors.filter (fun c => c ≠ "unknown")).foldl bumpCount st.color_counter },
     labels)
  else if !st.calibrated then
    ({ st with
        calibrated := true,
        team_colors := calibrate_teams st.color_counter st.team_colors,
        calib_calls := st.calib_calls + 1 },
     labels)
  else (st, labels)

/-- The `process_video` frame loop restricted to its calibration state:
frame `fn` is processed when `fn % frame_skip == 0`, skipped frames touch
nothing; returns the final state and the processed frames' label lists. -/
def calibLoop (calib_frames : ℤ) (frame_skip : ℕ) (fn : ℕ) (st : CalibState) :
    List (List String) → CalibState × List (List String)
  | [] => (st, [])
  | colors :: rest =>
    if fn % frame_skip = 0 then
      let r := calibStep calib_frames st fn colors
      let res := calibLoop calib_frames frame_skip (fn + 1) r.1 rest
      (res.1, r.2 :: res.2)
    else calibLoop calib_frames frame_skip (fn + 1) st rest

/-- A whole run of the calibration logic: `calib_frames = min(int(fps*5),
total_frames)` with the metadata frame count equal to the number of frames
the capture yields (`frames.length`), starting at frame 0 from the initial
state. `frames` lists each frame's players' jersey colors. -/
def calibRun (fps : ℚ) (frame_skip : ℕ) (frames : List (List String)) :
    CalibState × List (List String) :=
  calibLoop (min (pyInt (fps * 5)) (frames.length : ℤ)) frame_skip 0
    CalibState.init frames

/-- Result-dict extraction of a team's color:
`next((c for c, t in team_colors.items() if t == team), "unknown")`. -/
def teamColorLookup (team_colors : List (String × String)) (team : String) : String :=
  ((team_colors.find? (fun p => p.2 = team)).map Prod.fst).getD "unknown"

/-- Player record carried through tracking (`detector.PlayerInfo`): the
`track_id` is an integer with -1 as the unassigned sentinel. -/
structure PlayerInfo where
  detection : Detection
  team : String
  jersey_color : String
  jersey_number : Option String
  track_id : ℤ
deriving DecidableEq

/-- A tracked player (`tracker.TrackedPlayer`). -/
structure TrackedPlayer where
  track_id : ℤ
  player : PlayerInfo
  lost_frames : ℕ
deriving DecidableEq

/-- Per-frame detections record (`detector.FrameDetections`). -/
structure FrameDetections where
  frame_number : ℕ
  timestamp : ℚ
  players : List PlayerInfo
  ball : Option Detection
deriving DecidableEq

/-- State of `SimpleTracker`: match threshold, lost-frame limit, next identity
counter, and the insertion-ordered track table (a Python dict, embedded as
an association list). The ball trajectory's two deques are carried along. -/
structure SimpleTracker where
  iou_threshold : ℚ
  max_lost : ℕ
  next_id : ℤ
  players : List (ℤ × TrackedPlayer)
  ball_positions : List (ℚ × ℚ × ℕ)
  ball_timestamps : List ℚ
deriving DecidableEq

/-- Embeds `SimpleTracker.__init__` with its default arguments
(`iou_threshold=0.3`, `max_lost=15`). -/
def SimpleTracker.defaultInit : SimpleTracker :=
  { iou_threshold := 3 / 10, max_lost := 15, next_id := 0, players := [],
    ball_positions := [], ball_timestamps := [] }

/-- Append to a deque with `maxlen=60`: when full, the oldest element is
evicted from the front. -/
def dequePush60 {α : Type} (l : List α) (x : α) : List α :=
  (l ++ [x]).drop ((l ++ [x]).length - 60)

/-- The ball-tracking prologue of `SimpleTracker.update`: if a ball was
detected this frame, append its center to the trajectory. -/
def ballStep (st : SimpleTracker) (detections : FrameDetections) : SimpleTracker :=
  match detections.ball with
  | some b =>
    { st with
        ball_positions :=
          dequePush60 st.ball_positions (b.cx, b.cy, detections.frame_number),
        ball_timestamps := dequePush60 st.ball_timestamps detections.timestamp }
  | none => st

/-- A placeholder player for out-of-range list indices; the source only
ever indexes `detections.players` with indices from the unmatched pool,
which are always in range. -/
def defaultPlayer : PlayerInfo :=
  { detection := ⟨0, 0, 0, 0, 0, 0⟩, team := "unknown", jersey_color := "unknown",
    jersey_number := none, track_id := -1 }

/-- One candidate comparison of the matching loop's inner scan:
`if iou > best_iou: best_iou, best_det_idx = iou, det_idx`. -/
def bmStep (t : Detection) (dets : List PlayerInfo) (acc : ℚ × Option ℕ) (i : ℕ) :
    ℚ × Option ℕ :=
  if acc.1 < SimpleTracker.iou t (dets.getD i defaultPlayer).detection then
    (SimpleTracker.iou t (dets.getD i defaultPlayer).detection, some i)
  else acc

/-- The inner candidate scan of the matching loop:
`best_iou, best_det_idx = 0.0, -1` followed by
`for det_idx in unmatched_dets: if iou > best_iou: best_iou, best_det_idx = iou, det_idx`.
`none` models the `-1` sentinel. -/
def bestMatch (t : Detection) (dets : List PlayerInfo) (unmatched : List ℕ) :
    ℚ × Option ℕ :=
  unmatched.foldl (bmStep t dets) (0, none)

/-- The result of binding detection `p` to track `(tid, tr)`:
`player.track_id = track_id; tracked.player = player; tracked.lost_frames = 0`. -/
def boundTrack (tid : ℤ) (tr : TrackedPlayer) (p : PlayerInfo) : TrackedPlayer :=
  { tr with player := { p with track_id := tid }, lost_frames := 0 }

/-- The `for track_id, tracked in self._players.items()` matching loop of
`SimpleTracker.update`: returns the updated track entries, the remaining
unmatched pool, and the (track id, detection index) bindings made, in
order. The loop `break`s once the pool is empty. A binding
(`best_iou >= self.iou_threshold`) stores the detection (with `track_id`
set) on the track, resets `lost_frames` to 0, records the track as
matched, and removes the index from the pool (`unmatched_dets.remove`).
For a positive threshold the `none` candidate (Python's `-1` sentinel, on
which the source would raise) can never pass the threshold test, since any
selected candidate has positive IoU. -/
def matchLoop (thr : ℚ) (dets : List PlayerInfo) :
    List (ℤ × TrackedPlayer) → List ℕ →
    List (ℤ × TrackedPlayer) × List ℕ × List (ℤ × ℕ)
  | [], unmatched => ([], unmatched, [])
  | (tid, tr) :: rest, unmatched =>
    if unmatched = [] then ((tid, tr) :: rest, unmatched, [])
    else
      let best := bestMatch tr.player.detection dets unmatched
      if thr ≤ best.1 then
        match best.2 with
        | some j =>
          let tr2 := boundTrack tid tr (dets.getD j defaultPlayer)
          let res := matchLoop thr dets rest (unmatched.erase j)
          ((tid, tr2) :: res.1, res.2.1, (tid, j) :: res.2.2)
        | none =>
          let res := matchLoop thr dets rest unmatched
          ((tid, tr) :: res.1, res.2.1, res.2.2)
      else
        let res := matchLoop thr dets rest unmatched
        ((tid, tr) :: res.1, res.2.1, res.2.2)

/-- The unmatched-track pass of `SimpleTracker.update`: a track not
matched this frame gets `lost_frames += 1` and is deleted once the counter
exceeds `max_lost`. -/
def loseStep (max_lost : ℕ) (matched : List (ℤ × ℕ))
    (tracks : List (ℤ × TrackedPlayer)) : List (ℤ × TrackedPlayer) :=
  tracks.filterMap (fun q =>
    if q.1 ∈ matched.map Prod.fst then some q
    else
      let tr2 := { q.2 with lost_frames := q.2.lost_frames + 1 }
      if max_lost < tr2.lost_frames then none else some (q.1, tr2))

/-- The new-track pass of `SimpleTracker.update`: each detection left
unmatched becomes a fresh track under the next sequential identity;
returns the new entries and the advanced identity counter. -/
def addNew (dets : List PlayerInfo) : ℤ → List ℕ → List (ℤ × TrackedPlayer) × ℤ
  | nid, [] => ([], nid)
  | nid, i :: rest =>
    let p := { dets.getD i defaultPlayer with track_id := nid }
    let res := addNew dets (nid + 1) rest
    ((nid, { track_id := nid, player := p, lost_frames := 0 }) :: res.1, res.2)

/-- The matching phase of one `SimpleTracker.update` call, starting from
the pool of all detection indices. -/
def trackMatch (st : SimpleTracker) (f : FrameDetections) :
    List (ℤ × TrackedPlayer) × List ℕ × List (ℤ × ℕ) :=
  matchLoop st.iou_threshold f.players st.players (List.range f.players.length)

/-- The track table after one `SimpleTracker.update` call: matched tracks
updated, unmatched tracks aged or expired, then the new tracks appended
(dict insertion order). -/
def tracksAfter (st : SimpleTracker) (f : FrameDetections) :
    List (ℤ × TrackedPlayer) :=
  loseStep st.max_lost (trackMatch st f).2.2 (trackMatch st f).1 ++
    (addNew f.players st.next_id (trackMatch st f).2.1).1

/-- The identity counter after one `SimpleTracker.update` call. -/
def nextAfter (st : SimpleTracker) (f : FrameDetections) : ℤ :=
  (addNew f.players st.next_id (trackMatch st f).2.1).2

/-- Embeds `SimpleTracker.update`: track the ball, match the players, age/expire
unmatched tracks, create tracks for leftover detections, and return the
detections with `players` rebuilt from the tracks whose `lost_frames` is 0
(in table order). -/
def SimpleTracker.update (st : SimpleTracker) (detections : FrameDetections) :
    SimpleTracker × FrameDetections :=
  ({ ballStep st detections with
      next_id := nextAfter st detections, players := tracksAfter st detections },
   { detections with
      players := ((tracksAfter st detections).filter
        (fun q => q.2.lost_frames = 0)).map (fun q => q.2.player) })

/-- The (track id, detection index) bindings made on one frame. -/
def frameBindings (st : SimpleTracker) (f : FrameDetections) : List (ℤ × ℕ) :=
  (trackMatch st f).2.2

/-- Track identities created by one update: the ids present afterwards
that were not present before. -/
def newIds (st : SimpleTracker) (f : FrameDetections) : List ℤ :=
  ((SimpleTracker.update st f).1.players.map Prod.fst).filter
    (fun tid => tid ∉ st.players.map Prod.fst)

/-- The final tracker state of a run over a list of frames. -/
def runTracker (st : SimpleTracker) : List FrameDetections → SimpleTracker
  | [] => st
  | f :: fs => runTracker (SimpleTracker.update st f).1 fs

/-- All identities issued over a run, in order of issue. -/
def issuedIds (st : SimpleTracker) : List FrameDetections → List ℤ
  | [] => []
  | f :: fs => newIds st f ++ issuedIds (SimpleTracker.update st f).1 fs

/-- A track id that is never bound to a detection over a list of frames. -/
def NeverBound (tid : ℤ) : SimpleTracker → List FrameDetections → Prop
  | _, [] => True
  | st, f :: fs =>
    tid ∉ (frameBindings st f).map Prod.fst ∧
      NeverBound tid (SimpleTracker.update st f).1 fs

/-- A frame with no detections at all. -/
def emptyFrame : FrameDetections :=
  { frame_number := 0, timestamp := 0, players := [], ball := none }

/-- A player detection at `boxA` with the unassigned sentinel id. -/
def pA : PlayerInfo :=
  { detection := boxA, team := "unknown", jersey_color := "unknown",
    jersey_number := none, track_id := -1 }

/-- A frame with a single player detection at `boxA`. -/
def frameA : FrameDetections :=
  { frame_number := 0, timestamp := 0, players := [pA], ball := none }

/-- The tracker after one frame with a single detection: one track, id 0. -/
def stA : SimpleTracker := runTracker SimpleTracker.defaultInit [frameA]

/-- Track 0's entry after that first frame. -/
def trA0 : TrackedPlayer :=
  { track_id := 0, player := { pA with track_id := 0 }, lost_frames := 0 }

/-- Track 0's entry after one further frame with no detections. -/
def trA1 : TrackedPlayer :=
  { track_id := 0, player := { pA with track_id := 0 }, lost_frames := 1 }

/-- A stored track box of area 10. -/
def boxT : Detection := ⟨0, 0, 10, 1, 1, 0⟩

/-- A detection box overlapping `boxT` with IoU exactly 3/10, the default
match threshold. -/
def boxD : Detection := ⟨0, 0, 3, 1, 1, 0⟩

/-- The tracked player holding `boxT`. -/
def pT : PlayerInfo :=
  { detection := boxT, team := "unknown", jersey_color := "unknown",
    jersey_number := none, track_id := 0 }

/-- The incoming detection holding `boxD`. -/
def pD : PlayerInfo :=
  { detection := boxD, team := "unknown", jersey_color := "unknown",
    jersey_number := none, track_id := -1 }

/-- A tracker with one existing track at `boxT` and default settings. -/
def stT : SimpleTracker :=
  { iou_threshold := 3 / 10, max_lost := 15, next_id := 1,
    players := [(0, { track_id := 0, player := pT, lost_frames := 0 })],
    ball_positions := [], ball_timestamps := [] }

/-- A frame with the single detection `pD`. -/
def frameD : FrameDetections :=
  { frame_number := 1, timestamp := 0, players := [pD], ball := none }

/-- The tracker-state invariant: every table key is below the identity
counter, keys are distinct, each entry's stored ids agree with its key,
and no entry has outlived the lost-frame limit. -/
def TrackerInv (st : SimpleTracker) : Prop :=
  (∀ q ∈ st.players, q.1 < st.next_id) ∧
  (st.players.map Prod.fst).Nodup ∧
  (∀ q ∈ st.players, q.2.track_id = q.1 ∧ q.2.player.track_id = q.1) ∧
  (∀ q ∈ st.players, q.2.lost_frames ≤ st.max_lost)

-- ===== theorems =====

/-- The overlap area is bounded by each box's own area once it is positive. -/
theorem inter_le_areas (a b : Detection)
    (hx : max a.x1 b.x1 < min a.x2 b.x2) (hy : max a.y1 b.y1 < min a.y2 b.y2) :
    (min a.x2 b.x2 - max a.x1 b.x1) * (min a.y2 b.y2 - max a.y1 b.y1) ≤ a.area ∧
    (min a.x2 b.x2 - max a.x1 b.x1) * (min a.y2 b.y2 - max a.y1 b.y1) ≤ b.area := by
  have hax1 : a.x1 ≤ max a.x1 b.x1 := le_max_left _ _
  have hbx1 : b.x1 ≤ max a.x1 b.x1 := le_max_right _ _
  have hax2 : min a.x2 b.x2 ≤ a.x2 := min_le_left _ _
  have hbx2 : min a.x2 b.x2 ≤ b.x2 := min_le_right _ _
  have hay1 : a.y1 ≤ max a.y1 b.y1 := le_max_left _ _
  have hby1 : b.y1 ≤ max a.y1 b.y1 := le_max_right _ _
  have hay2 : min a.y2 b.y2 ≤ a.y2 := min_le_left _ _
  have hby2 : min a.y2 b.y2 ≤ b.y2 := min_le_right _ _
  unfold Detection.area Detection.w Detection.h
  constructor <;> nlinarith [hx.le, hy.le]

/-- Characterization of the positive-overlap case of IoU. -/
theorem iou_pos_case (a b : Detection)
    (hx : max a.x1 b.x1 < min a.x2 b.x2) (hy : max a.y1 b.y1 < min a.y2 b.y2) :
    SimpleTracker.iou a b =
      ((min a.x2 b.x2 - max a.x1 b.x1) * (min a.y2 b.y2 - max a.y1 b.y1)) /
        (a.area + b.area -
          (min a.x2 b.x2 - max a.x1 b.x1) * (min a.y2 b.y2 - max a.y1 b.y1)) := by
  have hxe : max 0 (min a.x2 b.x2 - max a.x1 b.x1) = min a.x2 b.x2 - max a.x1 b.x1 :=
    max_eq_right (by linarith)
  have hye : max 0 (min a.y2 b.y2 - max a.y1 b.y1) = min a.y2 b.y2 - max a.y1 b.y1 :=
    max_eq_right (by linarith)
  have hIpos : 0 < (min a.x2 b.x2 - max a.x1 b.x1) * (min a.y2 b.y2 - max a.y1 b.y1) :=
    mul_pos (by linarith) (by linarith)
  have hle := inter_le_areas a b hx hy
  have hUpos : 0 < a.area + b.area -
      (min a.x2 b.x2 - max a.x1 b.x1) * (min a.y2 b.y2 - max a.y1 b.y1) := by
    have := hle.2
    nlinarith
  simp only [SimpleTracker.iou, hxe, hye]
  rw [if_neg (by positivity), if_pos hUpos]

/-- If the overlap rectangle is empty on some axis, IoU is 0. -/
theorem iou_empty_case (a b : Detection)
    (h : min a.x2 b.x2 ≤ max a.x1 b.x1 ∨ min a.y2 b.y2 ≤ max a.y1 b.y1) :
    SimpleTracker.iou a b = 0 := by
  have hz : max 0 (min a.x2 b.x2 - max a.x1 b.x1) * max 0 (min a.y2 b.y2 - max a.y1 b.y1) = 0 := by
    rcases h with h | h
    · rw [max_eq_left (by linarith), zero_mul]
    · rw [max_eq_left (b := min a.y2 b.y2 - max a.y1 b.y1) (by linarith), mul_zero]
  simp only [SimpleTracker.iou, hz]
  simp

/-- IoU always lies in the unit interval. -/
theorem iou_mem_unit (a b : Detection) :
    0 ≤ SimpleTracker.iou a b ∧ SimpleTracker.iou a b ≤ 1 := by
  by_cases hx : max a.x1 b.x1 < min a.x2 b.x2
  · by_cases hy : max a.y1 b.y1 < min a.y2 b.y2
    · rw [iou_pos_case a b hx hy]
      have hle := inter_le_areas a b hx hy
      have hIpos : 0 < (min a.x2 b.x2 - max a.x1 b.x1) * (min a.y2 b.y2 - max a.y1 b.y1) :=
        mul_pos (by linarith) (by linarith)
      have hUpos : 0 < a.area + b.area -
          (min a.x2 b.x2 - max a.x1 b.x1) * (min a.y2 b.y2 - max a.y1 b.y1) := by
        have := hle.2; nlinarith
      constructor
      · positivity
      · rw [div_le_one hUpos]
        have := hle.1
        nlinarith
    · rw [iou_empty_case a b (Or.inr (by linarith))]; norm_num
  · rw [iou_empty_case a b (Or.inl (by linarith))]; norm_num

/-- IoU of a proper box with itself is 1. -/
theorem iou_self_proper (a : Detection) (hx : a.x1 < a.x2) (hy : a.y1 < a.y2) :
    SimpleTracker.iou a a = 1 := by
  have h := iou_pos_case a a (by simpa using hx) (by simpa using hy)
  rw [h]
  have harea : (min a.x2 a.x2 - max a.x1 a.x1) * (min a.y2 a.y2 - max a.y1 a.y1) = a.area := by
    simp [Detection.area, Detection.w, Detection.h]
  rw [harea]
  have hpos : 0 < a.area := by
    unfold Detection.area Detection.w Detection.h
    exact mul_pos (by linarith) (by linarith)
  rw [show a.area + a.area - a.area = a.area by ring]
  exact div_self hpos.ne.symm

/-- IoU is symmetric in its two arguments. -/
theorem iou_comm (a b : Detection) : SimpleTracker.iou a b = SimpleTracker.iou b a := by
  simp only [SimpleTracker.iou, max_comm a.x1 b.x1, max_comm a.y1 b.y1,
    min_comm a.x2 b.x2, min_comm a.y2 b.y2, add_comm a.area b.area]

/-- C4 (counterexample): the claim "IoU(a,a) = 1 for every box a" fails on a
degenerate zero-area box, for which the code's empty-overlap early return
yields 0. -/
theorem iou_self_degenerate_ne_one :
    SimpleTracker.iou boxDeg boxDeg = 0 ∧ SimpleTracker.iou boxDeg boxDeg ≠ 1 := by
  constructor <;> norm_num [SimpleTracker.iou, boxDeg]

/-- C4 (amended): for all boxes a and b, IoU(a,b) lies in [0,1] and is
symmetric; IoU(a,b) = 0 whenever a and b are disjoint; and IoU(a,a) = 1 for
every box of positive width and height (a degenerate box has self-IoU 0). -/
theorem iou_props :
    (∀ a b : Detection, 0 ≤ SimpleTracker.iou a b ∧ SimpleTracker.iou a b ≤ 1) ∧
    (∀ a : Detection, a.proper → SimpleTracker.iou a a = 1) ∧
    (∀ a b : Detection, boxDisjoint a b → SimpleTracker.iou a b = 0) ∧
    (∀ a b : Detection, SimpleTracker.iou a b = SimpleTracker.iou b a) := by
  refine ⟨iou_mem_unit, ?_, ?_, iou_comm⟩
  · exact fun a ha => iou_self_proper a ha.1 ha.2
  · exact fun a b h => iou_empty_case a b h

/-- C4 (witness): the amended theorem evaluated on concrete boxes: a proper
box has self-IoU 1, and two far-apart boxes have IoU 0. -/
theorem iou_props_witness :
    SimpleTracker.iou boxA boxA = 1 ∧ SimpleTracker.iou boxA boxFar = 0 :=
  ⟨iou_props.2.1 boxA (by constructor <;> norm_num [boxA]),
   iou_props.2.2.1 boxA boxFar (by left; norm_num [boxA, boxFar])⟩

/-- The consecutive-pair displacements among the samples from index m on
coincide with the index-range form of the source's speed loop. -/
theorem pairZip_eq_rangeTerms (pts : List (ℚ × ℚ × ℕ)) (m : ℕ) :
    ((pts.drop m).zip (pts.drop m).tail).map (fun pq => eucDist pq.1 pq.2) =
    (List.range' m (pts.length - 1 - m)).map
      (fun i => eucDist (pts.getD i (0, 0, 0)) (pts.getD (i + 1) (0, 0, 0))) := by
  apply List.ext_getElem
  · simp only [List.length_map, List.length_zip, List.length_tail, List.length_drop,
      List.length_range']
    omega
  · intro n h1 h2
    have hn : m + n + 1 < pts.length := by
      simp only [List.length_map, List.length_zip, List.length_tail, List.length_drop] at h1
      omega
    simp only [List.getElem_map, List.getElem_zip, List.getElem_tail, List.getElem_drop,
      List.getElem_range', one_mul]
    rw [List.getD_eq_getElem _ _ (by omega : m + n < pts.length),
      List.getD_eq_getElem _ _ (by omega : m + n + 1 < pts.length)]
    simp only [Nat.add_assoc]

/-- The source's speed accumulator is exactly the pairs among the last 5
samples. -/
theorem speedTerms_eq_lastWindow (pts : List (ℚ × ℚ × ℕ)) :
    BallTrajectory.speedTerms pts = lastWindowDists 5 pts := by
  unfold BallTrajectory.speedTerms lastWindowDists
  exact (pairZip_eq_rangeTerms pts (pts.length - 5)).symm

/-- C3 (amended): the speed feature is 0 for fewer than 2 samples, and for
n ≥ 2 samples it is the mean Euclidean frame-to-frame displacement over the
last up to 4 (not 5) consecutive sample pairs — the min(4, n-1) pairs drawn
from the last 5 samples. -/
theorem speed_spec :
    (∀ pts : List (ℚ × ℚ × ℕ), pts.length < 2 → BallTrajectory.speed pts = 0) ∧
    (∀ pts : List (ℚ × ℚ × ℕ), 2 ≤ pts.length →
      (lastWindowDists 5 pts).length = min 4 (pts.length - 1) ∧
      BallTrajectory.speed pts =
        (lastWindowDists 5 pts).sum / (lastWindowDists 5 pts).length) := by
  constructor
  · intro pts h
    simp [BallTrajectory.speed, h]
  · intro pts h
    have hlen : (lastWindowDists 5 pts).length = min 4 (pts.length - 1) := by
      unfold lastWindowDists
      simp only [List.length_map, List.length_zip, List.length_tail, List.length_drop]
      omega
    have hne : BallTrajectory.speedTerms pts ≠ [] := by
      rw [speedTerms_eq_lastWindow]
      apply List.ne_nil_of_length_pos
      omega
    refine ⟨hlen, ?_⟩
    unfold BallTrajectory.speed
    rw [if_neg (by omega), if_neg hne, speedTerms_eq_lastWindow]

/-- Evaluation helper: a Euclidean displacement whose squared length is a
perfect square. -/
theorem eucDist_eval (p q : ℚ × ℚ × ℕ) (r : ℝ) (h0 : 0 ≤ r)
    (h : ((q.1 - p.1 : ℚ) : ℝ) ^ 2 + ((q.2.1 - p.2.1 : ℚ) : ℝ) ^ 2 = r ^ 2) :
    eucDist p q = r := by
  unfold eucDist
  rw [h, Real.sqrt_sq h0]

/-- C3 (counterexample): on the six-sample trajectory `pts6` (displacements
1, 1, 1, 1, 100) the source speed averages only the last 4 displacements,
giving 103/4, while the claim's min(5, n-1)-pair mean is 104/5; the claim
as stated is therefore false at `pts6`. -/
theorem speed_counterexample :
    BallTrajectory.speed pts6 = 103 / 4 ∧ speedClaimed pts6 = 104 / 5 ∧
    BallTrajectory.speed pts6 ≠ speedClaimed pts6 := by
  have e1 : eucDist (0, 0, 0) (1, 0, 1) = 1 := eucDist_eval _ _ 1 (by norm_num) (by norm_num)
  have e2 : eucDist (1, 0, 1) (2, 0, 2) = 1 := eucDist_eval _ _ 1 (by norm_num) (by norm_num)
  have e3 : eucDist (2, 0, 2) (3, 0, 3) = 1 := eucDist_eval _ _ 1 (by norm_num) (by norm_num)
  have e4 : eucDist (3, 0, 3) (4, 0, 4) = 1 := eucDist_eval _ _ 1 (by norm_num) (by norm_num)
  have e5 : eucDist (4, 0, 4) (104, 0, 5) = 100 :=
    eucDist_eval _ _ 100 (by norm_num) (by norm_num)
  have hterms : BallTrajectory.speedTerms pts6 =
      [eucDist (1, 0, 1) (2, 0, 2), eucDist (2, 0, 2) (3, 0, 3),
       eucDist (3, 0, 3) (4, 0, 4), eucDist (4, 0, 4) (104, 0, 5)] := by
    unfold BallTrajectory.speedTerms
    rw [show List.range' (pts6.length - 5) (pts6.length - 1 - (pts6.length - 5)) =
      [1, 2, 3, 4] by rfl]
    rw [List.map_cons, List.map_cons, List.map_cons, List.map_cons, List.map_nil]
    rfl
  have hclaim : lastWindowDists 6 pts6 =
      [eucDist (0, 0, 0) (1, 0, 1), eucDist (1, 0, 1) (2, 0, 2),
       eucDist (2, 0, 2) (3, 0, 3), eucDist (3, 0, 3) (4, 0, 4),
       eucDist (4, 0, 4) (104, 0, 5)] := by
    unfold lastWindowDists
    rfl
  have hs : BallTrajectory.speed pts6 = 103 / 4 := by
    unfold BallTrajectory.speed
    rw [if_neg (by norm_num [pts6])]
    rw [if_neg (by rw [hterms]; exact fun hx => List.noConfusion hx)]
    rw [hterms]
    simp only [List.sum_cons, List.sum_nil, List.length_cons, List.length_nil, e2, e3, e4, e5]
    norm_num
  have hc : speedClaimed pts6 = 104 / 5 := by
    unfold speedClaimed
    rw [if_neg (by norm_num [pts6])]
    rw [hclaim]
    simp only [List.sum_cons, List.sum_nil, List.length_cons, List.length_nil,
      e1, e2, e3, e4, e5]
    norm_num
  refine ⟨hs, hc, ?_⟩
  rw [hs, hc]
  norm_num

/-- C3 (witness): the amended theorem evaluated at the empty trajectory and
at the concrete two-sample trajectory `pts2`. -/
theorem speed_spec_witness :
    BallTrajectory.speed [] = 0 ∧
    BallTrajectory.speed pts2 =
      (lastWindowDists 5 pts2).sum / (lastWindowDists 5 pts2).length :=
  ⟨speed_spec.1 [] (by norm_num), (speed_spec.2 pts2 (by norm_num [pts2])).2⟩

/-- Appending an event to the log changes it. -/
theorem events_append_ne (l : List Event) (e : Event) : l ++ [e] ≠ l := by
  intro h
  have := congrArg List.length h
  simp at this

/-- C1: on an update whose prediction's action differs from the current
run's action, an event for the ending run is appended iff stable_count ≥ 8,
the run lasted at least 0.3 seconds, and the ending action is not OTHER;
the committed event spans from the run's start frame/time to the current
frame/time and carries the incoming prediction's confidence and rationale;
in all cases the state resets to the new action at the current frame/time
with stable_count 1. -/
theorem segmenter_update_transition (st : EventSegmenter)
    (pred : ActionPrediction) (fn : ℕ) (ts : ℚ)
    (h : pred.action ≠ st.current_action) :
    ((EventSegmenter.update st pred fn ts).events =
        st.events ++
          [{ action_type := st.current_action, start_frame := st.start_frame,
             end_frame := fn, start_time := st.start_time, end_time := ts,
             confidence := pred.confidence, description := pred.description }] ↔
      8 ≤ st.stable_count ∧ 3 / 10 ≤ ts - st.start_time ∧
        st.current_action ≠ ActionType.other) ∧
    (¬(8 ≤ st.stable_count ∧ 3 / 10 ≤ ts - st.start_time ∧
        st.current_action ≠ ActionType.other) →
      (EventSegmenter.update st pred fn ts).events = st.events) ∧
    (EventSegmenter.update st pred fn ts).current_action = pred.action ∧
    (EventSegmenter.update st pred fn ts).start_frame = fn ∧
    (EventSegmenter.update st pred fn ts).start_time = ts ∧
    (EventSegmenter.update st pred fn ts).stable_count = 1 := by
  have hev : EventSegmenter.update st pred fn ts =
      { events := if 8 ≤ st.stable_count ∧ 3 / 10 ≤ ts - st.start_time ∧
            st.current_action ≠ ActionType.other then
          st.events ++
            [{ action_type := st.current_action, start_frame := st.start_frame,
               end_frame := fn, start_time := st.start_time, end_time := ts,
               confidence := pred.confidence, description := pred.description }]
          else st.events,
        current_action := pred.action, start_frame := fn, start_time := ts,
        stable_count := 1 } := by
    unfold EventSegmenter.update
    rw [if_neg h]
    simp only [EventSegmenter.MIN_STABLE_FRAMES, EventSegmenter.MIN_EVENT_DURATION]
    by_cases h1 : 8 ≤ st.stable_count
    · by_cases h2 : 3 / 10 ≤ ts - st.start_time ∧ st.current_action ≠ ActionType.other
      · rw [if_pos h1, if_pos h2, if_pos ⟨h1, h2⟩]
      · rw [if_pos h1, if_neg h2, if_neg (fun hx => h2 hx.2)]
    · rw [if_neg h1, if_neg (fun hx => h1 hx.1)]
  rw [hev]
  refine ⟨?_, ?_, rfl, rfl, rfl, rfl⟩
  · by_cases hc : 8 ≤ st.stable_count ∧ 3 / 10 ≤ ts - st.start_time ∧
        st.current_action ≠ ActionType.other
    · rw [if_pos hc]
      exact iff_of_true rfl hc
    · rw [if_neg hc]
      exact iff_of_false (fun hx => events_append_ne _ _ hx.symm) hc
  · intro hc
    rw [if_neg hc]

/-- C1 (witness): the transition theorem evaluated on a concrete stable
SET run interrupted by an ATTACK prediction after 0.9 seconds. -/
theorem segmenter_update_transition_witness :
    (EventSegmenter.update
        { events := [], current_action := .set, start_frame := 0,
          start_time := 0, stable_count := 9 }
        ⟨.attack, 17 / 20, "fast downward"⟩ 27 (9 / 10)).events =
      [{ action_type := .set, start_frame := 0, end_frame := 27,
         start_time := 0, end_time := 9 / 10, confidence := 17 / 20,
         description := "fast downward" }] := by
  have h := (segmenter_update_transition
    { events := [], current_action := .set, start_frame := 0, start_time := 0,
      stable_count := 9 }
    ⟨.attack, 17 / 20, "fast downward"⟩ 27 (9 / 10) (by decide)).1.mpr
    ⟨by norm_num, by norm_num, by decide⟩
  simpa using h

/-- C2 (counterexample): after eight consecutive SET predictions at 100 fps
the open run is stable (stable_count = 8) but spans only 0.07 s; flushing
at 0.1 s still appends an event even though the run's duration is far below
the 0.3 s the claim requires for flush commits. -/
theorem flush_counterexample :
    segC2.stable_count = 8 ∧ segC2.current_action = ActionType.set ∧
    (1 / 10 : ℚ) - segC2.start_time < 3 / 10 ∧
    (segC2.flush 9 (1 / 10)).events.length = segC2.events.length + 1 := by
  refine ⟨rfl, rfl, ?_, rfl⟩
  have h : segC2.start_time = ((0 : ℕ) : ℚ) / 100 := rfl
  rw [h]
  norm_num

/-- C2 (amended): flush appends at most one additional event, and appends
one iff the trailing open run has stable_count ≥ 8 and its action is not
OTHER — with no minimum-duration requirement, unlike update-path commits;
a flush-committed event carries the fixed confidence 0.6 and the fixed
rationale "Last event (flush)". -/
theorem flush_spec (st : EventSegmenter) (ff : ℕ) (ft : ℚ) :
    ((st.flush ff ft).events = st.events ∨
      (st.flush ff ft).events = st.events ++
        [{ action_type := st.current_action, start_frame := st.start_frame,
           end_frame := ff, start_time := st.start_time, end_time := ft,
           confidence := 3 / 5, description := "Last event (flush)" }]) ∧
    ((st.flush ff ft).events = st.events ++
        [{ action_type := st.current_action, start_frame := st.start_frame,
           end_frame := ff, start_time := st.start_time, end_time := ft,
           confidence := 3 / 5, description := "Last event (flush)" }] ↔
      8 ≤ st.stable_count ∧ st.current_action ≠ ActionType.other) := by
  unfold EventSegmenter.flush
  simp only [EventSegmenter.MIN_STABLE_FRAMES]
  by_cases h : 8 ≤ st.stable_count ∧ st.current_action ≠ ActionType.other
  · rw [if_pos h]
    exact ⟨Or.inr rfl, iff_of_true rfl h⟩
  · rw [if_neg h]
    exact ⟨Or.inl rfl, iff_of_false (fun hx => events_append_ne _ _ hx.symm) h⟩

/-- The descending sort is a permutation of the input. -/
theorem sortByCountDesc_perm (l : List (String × ℕ)) : (sortByCountDesc l).Perm l :=
  List.mergeSort_perm l _

/-- The descending sort is sorted by non-increasing count. -/
theorem sortByCountDesc_sorted (l : List (String × ℕ)) :
    List.Pairwise (fun a b : String × ℕ => b.2 ≤ a.2) (sortByCountDesc l) := by
  have h := @List.sorted_mergeSort (String × ℕ) (fun a b => decide (b.2 ≤ a.2))
    (fun a b c hab hbc => by
      simp only [decide_eq_true_eq] at *
      exact le_trans hbc hab)
    (fun a b => by
      simp only [Bool.or_eq_true, decide_eq_true_eq]
      exact le_total b.2 a.2)
    l
  exact h.imp (fun hx => of_decide_eq_true hx)

/-- C8: with no non-unknown color observed, calibration leaves the (empty)
mapping unchanged; with exactly one, only team_a is assigned; with two or
more, team_a goes to a most frequent non-unknown color and team_b to a most
frequent remaining one, and every other color has no assignment; on the
concrete counts red:40, blue:35, white:5 it yields red→team_a, blue→team_b
and nothing for white. -/
theorem calibrate_teams_spec :
    (∀ counts : List (String × ℕ),
      counts.filter (fun p => p.1 ≠ "unknown") = [] →
      calibrate_teams counts [] = []) ∧
    (∀ counts : List (String × ℕ),
      (counts.filter (fun p => p.1 ≠ "unknown")).length = 1 →
      ∃ c n, (c, n) ∈ counts ∧ c ≠ "unknown" ∧
        calibrate_teams counts [] = [(c, "team_a")]) ∧
    (∀ counts : List (String × ℕ), (counts.map Prod.fst).Nodup →
      2 ≤ (counts.filter (fun p => p.1 ≠ "unknown")).length →
      ∃ c1 n1 c2 n2, (c1, n1) ∈ counts ∧ (c2, n2) ∈ counts ∧
        c1 ≠ "unknown" ∧ c2 ≠ "unknown" ∧ c1 ≠ c2 ∧
        calibrate_teams counts [] = [(c1, "team_a"), (c2, "team_b")] ∧
        (∀ p ∈ counts, p.1 ≠ "unknown" → p.2 ≤ n1) ∧
        (∀ p ∈ counts, p.1 ≠ "unknown" → p.1 ≠ c1 → p.2 ≤ n2) ∧
        (∀ c : String, c ≠ c1 → c ≠ c2 →
          List.lookup c [(c1, "team_a"), (c2, "team_b")] = none)) ∧
    (calibrate_teams sceneCounts [] = [("red", "team_a"), ("blue", "team_b")] ∧
      List.lookup "white" (calibrate_teams sceneCounts []) = none) := by
  refine ⟨?_, ?_, ?_, ?_⟩
  · intro counts h
    have hsf : (sortByCountDesc counts).filter (fun p => p.1 ≠ "unknown") = [] := by
      have hp := (sortByCountDesc_perm counts).filter (fun p => p.1 ≠ "unknown")
      rw [h] at hp
      exact List.eq_nil_of_length_eq_zero (by simpa using hp.length_eq)
    simp only [calibrate_teams]
    rw [hsf]
    rfl
  · intro counts h
    have hlen : ((sortByCountDesc counts).filter (fun p => p.1 ≠ "unknown")).length = 1 := by
      rw [((sortByCountDesc_perm counts).filter (fun p => p.1 ≠ "unknown")).length_eq, h]
    obtain ⟨a, hfa⟩ := List.length_eq_one.mp hlen
    have hamem : a ∈ (sortByCountDesc counts).filter (fun p => p.1 ≠ "unknown") := by
      rw [hfa]; exact List.mem_singleton_self a
    refine ⟨a.1, a.2, ?_, ?_, ?_⟩
    · have : a ∈ sortByCountDesc counts := (List.filter_sublist _).subset hamem
      simpa using (sortByCountDesc_perm counts).mem_iff.mp this
    · exact of_decide_eq_true (List.mem_filter.mp hamem).2
    · simp only [calibrate_teams]
      rw [hfa]
      rfl
  · intro counts hnd h
    have hcnd : counts.Nodup := List.Nodup.of_map _ hnd
    have hsnd : (sortByCountDesc counts).Nodup := (sortByCountDesc_perm counts).nodup_iff.mpr hcnd
    have hfnd : ((sortByCountDesc counts).filter (fun p => p.1 ≠ "unknown")).Nodup :=
      hsnd.filter _
    have hlen : 2 ≤ ((sortByCountDesc counts).filter (fun p => p.1 ≠ "unknown")).length := by
      rw [((sortByCountDesc_perm counts).filter (fun p => p.1 ≠ "unknown")).length_eq]
      exact h
    obtain ⟨a, r1, hf1⟩ := List.exists_cons_of_ne_nil
      (l := (sortByCountDesc counts).filter (fun p => p.1 ≠ "unknown"))
      (fun hx => by rw [hx] at hlen; simp at hlen)
    have hlen2 : 1 ≤ r1.length := by
      have := hlen
      rw [hf1] at this
      simpa using this
    obtain ⟨b, t, hf2⟩ := List.exists_cons_of_ne_nil
      (l := r1) (fun hx => by rw [hx] at hlen2; simp at hlen2)
    have hf : (sortByCountDesc counts).filter (fun p => p.1 ≠ "unknown") = a :: b :: t := by
      rw [hf1, hf2]
    have hsorted := (sortByCountDesc_sorted counts).filter
      (fun p : String × ℕ => p.1 ≠ "unknown")
    rw [hf] at hsorted hfnd
    have hamax : ∀ q ∈ b :: t, q.2 ≤ a.2 := fun q hq => (List.pairwise_cons.mp hsorted).1 q hq
    have hbmax : ∀ q ∈ t, q.2 ≤ b.2 :=
      fun q hq => (List.pairwise_cons.mp (List.pairwise_cons.mp hsorted).2).1 q hq
    have haf : a ∈ (sortByCountDesc counts).filter (fun p => p.1 ≠ "unknown") := by
      rw [hf]; exact List.mem_cons_self a _
    have hbf : b ∈ (sortByCountDesc counts).filter (fun p => p.1 ≠ "unknown") := by
      rw [hf]; exact List.mem_cons_of_mem a (List.mem_cons_self b t)
    have hac : a ∈ counts :=
      (sortByCountDesc_perm counts).mem_iff.mp ((List.filter_sublist _).subset haf)
    have hbc : b ∈ counts :=
      (sortByCountDesc_perm counts).mem_iff.mp ((List.filter_sublist _).subset hbf)
    have hane : a.1 ≠ "unknown" := of_decide_eq_true (List.mem_filter.mp haf).2
    have hbne : b.1 ≠ "unknown" := of_decide_eq_true (List.mem_filter.mp hbf).2
    have hab : a ≠ b := by
      intro hx
      exact (List.nodup_cons.mp hfnd).1 (hx ▸ List.mem_cons_self b t)
    have hab1 : a.1 ≠ b.1 := by
      intro hx
      exact hab (List.inj_on_of_nodup_map hnd hac hbc hx)
    have hmemf : ∀ p ∈ counts, p.1 ≠ "unknown" → p ∈ a :: b :: t := by
      intro p hp hpne
      rw [← hf]
      exact (((sortByCountDesc_perm counts).filter
        (fun p : String × ℕ => p.1 ≠ "unknown")).mem_iff).mpr
        (List.mem_filter.mpr ⟨hp, decide_eq_true hpne⟩)
    refine ⟨a.1, a.2, b.1, b.2, by simpa using hac, by simpa using hbc, hane, hbne, hab1,
      ?_, ?_, ?_, ?_⟩
    · simp only [calibrate_teams]
      rw [hf]
      rfl
    · intro p hp hpne
      rcases List.mem_cons.mp (hmemf p hp hpne) with h1 | h2
      · simp [h1]
      · exact hamax p h2
    · intro p hp hpne hpa
      rcases List.mem_cons.mp (hmemf p hp hpne) with h1 | h2
      · exact absurd (congrArg Prod.fst h1) hpa
      · rcases List.mem_cons.mp h2 with h3 | h4
        · simp [h3]
        · exact hbmax p h4
    · intro c hc1 hc2
      simp only [List.lookup]
      rw [beq_eq_false_iff_ne.mpr hc1, beq_eq_false_iff_ne.mpr hc2]
  · constructor
    · simp [calibrate_teams, sortByCountDesc, sceneCounts, List.mergeSort]
    · have hval : calibrate_teams sceneCounts [] =
          [("red", "team_a"), ("blue", "team_b")] := by
        simp [calibrate_teams, sortByCountDesc, sceneCounts, List.mergeSort]
      rw [hval]
      decide

/-- C8 (witness): the calibration theorem evaluated on concrete counts —
the single-color case and the two-or-more case on the scenario counts. -/
theorem calibrate_teams_spec_witness :
    (∃ c n, (c, n) ∈ [("red", (3 : ℕ))] ∧ c ≠ "unknown" ∧
      calibrate_teams [("red", 3)] [] = [(c, "team_a")]) ∧
    (∃ c1 n1 c2 n2, (c1, n1) ∈ sceneCounts ∧ (c2, n2) ∈ sceneCounts ∧
      c1 ≠ "unknown" ∧ c2 ≠ "unknown" ∧ c1 ≠ c2 ∧
      calibrate_teams sceneCounts [] = [(c1, "team_a"), (c2, "team_b")] ∧
      (∀ p ∈ sceneCounts, p.1 ≠ "unknown" → p.2 ≤ n1) ∧
      (∀ p ∈ sceneCounts, p.1 ≠ "unknown" → p.1 ≠ c1 → p.2 ≤ n2) ∧
      (∀ c : String, c ≠ c1 → c ≠ c2 →
        List.lookup c [(c1, "team_a"), (c2, "team_b")] = none)) :=
  ⟨calibrate_teams_spec.2.1 [("red", 3)] (by decide),
   calibrate_teams_spec.2.2.1 sceneCounts (by decide) (by decide)⟩

/-- Every in-loop progress value lies in [0, 0.92]. -/
theorem progress_loop_bounds (total n : ℕ) (x : ℚ)
    (hx : x ∈ progressLoopValues total n) :
    0 ≤ x ∧ x ≤ 23 / 25 := by
  obtain ⟨fn, _, rfl⟩ := List.mem_map.mp hx
  have hT : (0 : ℚ) < ((max total 1 : ℕ) : ℚ) := by
    have : 1 ≤ max total 1 := le_max_right _ _
    exact_mod_cast Nat.lt_of_lt_of_le Nat.zero_lt_one this
  exact ⟨le_min (div_nonneg (Nat.cast_nonneg fn) hT.le) (by norm_num), min_le_right _ _⟩

/-- C9: over a run of `process_video` the values delivered to the progress
callback are monotonically non-decreasing, all lie in [0,1], every value
before the final one is strictly below 1, and the final one is exactly 1. -/
theorem progress_spec (total n : ℕ) :
    List.Pairwise (· ≤ ·) (progressValues total n) ∧
    (∀ x ∈ progressValues total n, 0 ≤ x ∧ x ≤ 1) ∧
    (∀ x ∈ (progressValues total n).dropLast, x < 1) ∧
    (progressValues total n).getLast? = some 1 := by
  have hT : (0 : ℚ) < ((max total 1 : ℕ) : ℚ) := by
    have : 1 ≤ max total 1 := le_max_right _ _
    exact_mod_cast Nat.lt_of_lt_of_le Nat.zero_lt_one this
  refine ⟨?_, ?_, ?_, ?_⟩
  · unfold progressValues
    rw [List.pairwise_append]
    refine ⟨?_, by norm_num, ?_⟩
    · have hr : List.Pairwise (· < ·) (List.range n) := List.pairwise_lt_range n
      have hm : List.Pairwise (· < ·) ((List.range n).map (fun i : ℕ => i + 1)) :=
        hr.map _ (fun a b h => by omega)
      have hf : List.Pairwise (· < ·)
          (((List.range n).map (fun i : ℕ => i + 1)).filter (fun fn => fn % 30 = 0)) :=
        hm.filter _
      exact hf.map _ (fun a b h =>
        min_le_min (by gcongr) le_rfl)
    · intro a ha b hb
      have h1 : a ≤ 23 / 25 := (progress_loop_bounds total n a ha).2
      rcases List.mem_cons.mp hb with h2 | h2
      · rw [h2]; linarith
      · rw [List.mem_singleton.mp h2]; linarith
  · intro x hx
    rcases List.mem_append.mp hx with h1 | h1
    · have := progress_loop_bounds total n x h1
      exact ⟨this.1, by linarith [this.2]⟩
    · rcases List.mem_cons.mp h1 with h2 | h2
      · rw [h2]; norm_num
      · rw [List.mem_singleton.mp h2]; norm_num
  · intro x hx
    have hsplit : progressValues total n =
        (progressLoopValues total n ++ [47 / 50]) ++ [1] := by
      unfold progressValues
      rw [List.append_assoc]
      rfl
    rw [hsplit, List.dropLast_concat] at hx
    rcases List.mem_append.mp hx with h1 | h1
    · have := (progress_loop_bounds total n x h1).2
      linarith
    · rw [List.mem_singleton.mp h1]; norm_num
  · have hsplit : progressValues total n =
        (progressLoopValues total n ++ [47 / 50]) ++ [1] := by
      unfold progressValues
      rw [List.append_assoc]
      rfl
    rw [hsplit, List.getLast?_concat]

/-- The calibration loop invariant: as long as every frame index stays
below the window bound, no frame reaches the calibrate branch, so the flag,
mapping and call count stay at their initial values and every emitted team
label is "unknown". -/
theorem calibLoop_inv (cf : ℤ) (skip : ℕ) (frames : List (List String)) :
    ∀ (fn : ℕ) (st : CalibState),
    ((fn + frames.length : ℕ) : ℤ) ≤ cf →
    st.calibrated = false → st.team_colors = [] → st.calib_calls = 0 →
    ((calibLoop cf skip fn st frames).1.calibrated = false ∧
      (calibLoop cf skip fn st frames).1.team_colors = [] ∧
      (calibLoop cf skip fn st frames).1.calib_calls = 0) ∧
    ∀ ls ∈ (calibLoop cf skip fn st frames).2, ∀ x ∈ ls, x = "unknown" := by
  induction frames with
  | nil =>
    intro fn st _ h1 h2 h3
    exact ⟨⟨h1, h2, h3⟩, by simp [calibLoop]⟩
  | cons colors rest ih =>
    intro fn st hcf h1 h2 h3
    have hfn : (fn : ℤ) < cf := by
      have : ((fn + (rest.length + 1) : ℕ) : ℤ) ≤ cf := by
        simpa [List.length_cons] using hcf
      omega
    have hrest : ((fn + 1 + rest.length : ℕ) : ℤ) ≤ cf := by
      have : ((fn + (rest.length + 1) : ℕ) : ℤ) ≤ cf := by
        simpa [List.length_cons] using hcf
      omega
    unfold calibLoop
    by_cases hs : fn % skip = 0
    · rw [if_pos hs]
      have hstep : calibStep cf st fn colors =
          ({ st with color_counter :=
              (colors.filter (fun c => c ≠ "unknown")).foldl bumpCount st.color_counter },
           colors.map (fun c => (st.team_colors.lookup c).getD "unknown")) := by
        unfold calibStep
        rw [if_pos hfn]
      rw [hstep]
      have hrec := ih (fn + 1)
        { st with color_counter :=
            (colors.filter (fun c => c ≠ "unknown")).foldl bumpCount st.color_counter }
        hrest h1 h2 h3
      refine ⟨hrec.1, ?_⟩
      intro ls hls x hx
      rcases List.mem_cons.mp hls with hl | hl
      · rw [hl] at hx
        obtain ⟨c, _, hmap⟩ := List.mem_map.mp hx
        rw [h2] at hmap
        simpa [List.lookup] using hmap.symm
      · exact hrec.2 ls hl x hx
    · rw [if_neg hs]
      exact ih (fn + 1) st hrest h1 h2 h3

/-- C10: when the whole video fits inside the calibration window (frames
read ≤ int(5·fps)), `calibrate_teams` is never called, the detector's
team-color mapping stays empty, every player's team label stays "unknown"
for the entire run, and the result reports both team colors as "unknown". -/
theorem calibration_window_spec (fps : ℚ) (frame_skip : ℕ)
    (frames : List (List String))
    (h : (frames.length : ℤ) ≤ pyInt (fps * 5)) :
    (calibRun fps frame_skip frames).1.calib_calls = 0 ∧
    (calibRun fps frame_skip frames).1.team_colors = [] ∧
    (∀ ls ∈ (calibRun fps frame_skip frames).2, ∀ x ∈ ls, x = "unknown") ∧
    teamColorLookup (calibRun fps frame_skip frames).1.team_colors "team_a" = "unknown" ∧
    teamColorLookup (calibRun fps frame_skip frames).1.team_colors "team_b" = "unknown" := by
  have hcf : ((0 + frames.length : ℕ) : ℤ) ≤
      min (pyInt (fps * 5)) (frames.length : ℤ) := by
    push_cast
    omega
  have hinv := calibLoop_inv (min (pyInt (fps * 5)) (frames.length : ℤ)) frame_skip
    frames 0 CalibState.init hcf rfl rfl rfl
  have hrun : calibRun fps frame_skip frames =
      calibLoop (min (pyInt (fps * 5)) (frames.length : ℤ)) frame_skip 0
        CalibState.init frames := rfl
  rw [hrun]
  refine ⟨hinv.1.2.2, hinv.1.2.1, hinv.2, ?_, ?_⟩ <;>
    rw [hinv.1.2.1] <;> rfl

/-- C10 (witness): a 2-frame video at 30 fps (window 150 frames): the run
never calibrates and reports unknown team colors. -/
theorem calibration_window_spec_witness :
    (calibRun 30 2 [["red"], ["blue"]]).1.calib_calls = 0 ∧
    (calibRun 30 2 [["red"], ["blue"]]).1.team_colors = [] ∧
    (∀ ls ∈ (calibRun 30 2 [["red"], ["blue"]]).2, ∀ x ∈ ls, x = "unknown") ∧
    teamColorLookup (calibRun 30 2 [["red"], ["blue"]]).1.team_colors "team_a" =
      "unknown" ∧
    teamColorLookup (calibRun 30 2 [["red"], ["blue"]]).1.team_colors "team_b" =
      "unknown" :=
  calibration_window_spec 30 2 [["red"], ["blue"]]
    (by
      have h5 : (30 : ℚ) * 5 = 150 := by norm_num
      rw [h5]
      norm_num [pyInt])

/-- The inner scan's accumulator only grows, bounds every candidate, and
either stays put or selects a candidate attaining its value. -/
theorem bmFold_spec (t : Detection) (dets : List PlayerInfo) :
    ∀ (u : List ℕ) (acc : ℚ × Option ℕ),
    acc.1 ≤ (u.foldl (bmStep t dets) acc).1 ∧
    (∀ i ∈ u, SimpleTracker.iou t (dets.getD i defaultPlayer).detection ≤
      (u.foldl (bmStep t dets) acc).1) ∧
    (u.foldl (bmStep t dets) acc = acc ∨
      ∃ j ∈ u, (u.foldl (bmStep t dets) acc).2 = some j ∧
        (u.foldl (bmStep t dets) acc).1 =
          SimpleTracker.iou t (dets.getD j defaultPlayer).detection) := by
  intro u
  induction u with
  | nil => exact fun acc => ⟨le_rfl, by simp, Or.inl rfl⟩
  | cons i rest ih =>
    intro acc
    simp only [List.foldl_cons]
    have h1 := ih (bmStep t dets acc i)
    by_cases hc : acc.1 < SimpleTracker.iou t (dets.getD i defaultPlayer).detection
    · have hstep : bmStep t dets acc i =
          (SimpleTracker.iou t (dets.getD i defaultPlayer).detection, some i) := by
        unfold bmStep
        rw [if_pos hc]
      rw [hstep] at h1 ⊢
      refine ⟨le_trans hc.le h1.1, ?_, ?_⟩
      · intro k hk
        rcases List.mem_cons.mp hk with hk1 | hk2
        · exact hk1 ▸ h1.1
        · exact h1.2.1 k hk2
      · rcases h1.2.2 with h2 | ⟨j, hj, hj2, hj3⟩
        · refine Or.inr ⟨i, List.mem_cons_self i rest, ?_, ?_⟩
          · rw [h2]
          · rw [h2]
        · exact Or.inr ⟨j, List.mem_cons_of_mem i hj, hj2, hj3⟩
    · have hstep : bmStep t dets acc i = acc := by
        unfold bmStep
        rw [if_neg hc]
      rw [hstep] at h1 ⊢
      refine ⟨h1.1, ?_, ?_⟩
      · intro k hk
        rcases List.mem_cons.mp hk with hk1 | hk2
        · exact hk1 ▸ le_trans (le_of_not_lt hc) h1.1
        · exact h1.2.1 k hk2
      · rcases h1.2.2 with h2 | ⟨j, hj, hj2, hj3⟩
        · exact Or.inl h2
        · exact Or.inr ⟨j, List.mem_cons_of_mem i hj, hj2, hj3⟩

/-- The scan `bestMatch` bounds every candidate's IoU, is non-negative, and — when
its value reaches a positive threshold — selects a pool index attaining
exactly that value. -/
theorem bestMatch_spec (t : Detection) (dets : List PlayerInfo) (u : List ℕ) :
    (∀ i ∈ u, SimpleTracker.iou t (dets.getD i defaultPlayer).detection ≤
      (bestMatch t dets u).1) ∧
    0 ≤ (bestMatch t dets u).1 ∧
    (∀ thr : ℚ, 0 < thr → thr ≤ (bestMatch t dets u).1 →
      ∃ j ∈ u, (bestMatch t dets u).2 = some j ∧
        (bestMatch t dets u).1 =
          SimpleTracker.iou t (dets.getD j defaultPlayer).detection) := by
  have h := bmFold_spec t dets u (0, none)
  refine ⟨h.2.1, h.1, ?_⟩
  intro thr hpos hle
  rcases h.2.2 with h2 | h2
  · exfalso
    have : (bestMatch t dets u).1 = 0 := by
      unfold bestMatch
      rw [h2]
    rw [this] at hle
    exact absurd (lt_of_lt_of_le hpos hle) (lt_irrefl 0)
  · exact h2

/-- A selected candidate always comes from the pool. -/
theorem bmFold_some_mem (t : Detection) (dets : List PlayerInfo) :
    ∀ (u : List ℕ) (acc : ℚ × Option ℕ) (j : ℕ),
    (u.foldl (bmStep t dets) acc).2 = some j → acc.2 = some j ∨ j ∈ u := by
  intro u
  induction u with
  | nil => exact fun acc j h => Or.inl h
  | cons i rest ih =>
    intro acc j h
    simp only [List.foldl_cons] at h
    rcases ih (bmStep t dets acc i) j h with h1 | h1
    · unfold bmStep at h1
      by_cases hc : acc.1 < SimpleTracker.iou t (dets.getD i defaultPlayer).detection
      · rw [if_pos hc] at h1
        exact Or.inr (by simp at h1; exact h1 ▸ List.mem_cons_self i rest)
      · rw [if_neg hc] at h1
        exact Or.inl h1
    · exact Or.inr (List.mem_cons_of_mem i h1)

/-- The scan `bestMatch` selects indices from the pool. -/
theorem bestMatch_some_mem (t : Detection) (dets : List PlayerInfo) (u : List ℕ)
    (j : ℕ) (h : (bestMatch t dets u).2 = some j) : j ∈ u := by
  rcases bmFold_some_mem t dets u (0, none) j h with h1 | h1
  · exact absurd h1 (by simp)
  · exact h1

/-- The matching loop `break`s on an empty pool. -/
theorem matchLoop_cons_break (thr : ℚ) (dets : List PlayerInfo) (tid : ℤ)
    (tr : TrackedPlayer) (rest : List (ℤ × TrackedPlayer)) :
    matchLoop thr dets ((tid, tr) :: rest) [] = ((tid, tr) :: rest, [], []) := by
  simp [matchLoop]

/-- The matching loop's binding step: the best candidate reaches the
threshold and is bound. -/
theorem matchLoop_cons_bind (thr : ℚ) (dets : List PlayerInfo) (tid : ℤ)
    (tr : TrackedPlayer) (rest : List (ℤ × TrackedPlayer)) (u : List ℕ) (j : ℕ)
    (hu : u ≠ []) (hth : thr ≤ (bestMatch tr.player.detection dets u).1)
    (hbm : (bestMatch tr.player.detection dets u).2 = some j) :
    matchLoop thr dets ((tid, tr) :: rest) u =
      ((tid, boundTrack tid tr (dets.getD j defaultPlayer)) ::
        (matchLoop thr dets rest (u.erase j)).1,
       (matchLoop thr dets rest (u.erase j)).2.1,
       (tid, j) :: (matchLoop thr dets rest (u.erase j)).2.2) := by
  conv_lhs => rw [matchLoop]
  rw [if_neg hu, if_pos hth, hbm]

/-- The matching loop's skip step: the best candidate misses the
threshold (or the sentinel survived), so the track stays as it is. -/
theorem matchLoop_cons_skip (thr : ℚ) (dets : List PlayerInfo) (tid : ℤ)
    (tr : TrackedPlayer) (rest : List (ℤ × TrackedPlayer)) (u : List ℕ)
    (hu : u ≠ [])
    (h : ¬ thr ≤ (bestMatch tr.player.detection dets u).1 ∨
      (bestMatch tr.player.detection dets u).2 = none) :
    matchLoop thr dets ((tid, tr) :: rest) u =
      ((tid, tr) :: (matchLoop thr dets rest u).1,
       (matchLoop thr dets rest u).2.1, (matchLoop thr dets rest u).2.2) := by
  conv_lhs => rw [matchLoop]
  rw [if_neg hu]
  rcases h with h | h
  · rw [if_neg h]
  · by_cases hth : thr ≤ (bestMatch tr.player.detection dets u).1
    · rw [if_pos hth, h]
    · rw [if_neg hth]

/-- Structural facts about the matching loop: it preserves the key list;
its bindings' track ids form a sublist of the keys; the leftover pool is a
sublist of the input pool; bound detection indices come from the pool and
are distinct for a duplicate-free pool; every output entry is either an
untouched input entry or a bound one (same key, counter reset, ids set);
and entries of unbound tracks pass through unchanged. -/
theorem matchLoop_spec (thr : ℚ) (dets : List PlayerInfo) :
    ∀ (tracks : List (ℤ × TrackedPlayer)) (u : List ℕ),
    (matchLoop thr dets tracks u).1.map Prod.fst = tracks.map Prod.fst ∧
    ((matchLoop thr dets tracks u).2.2.map Prod.fst).Sublist (tracks.map Prod.fst) ∧
    (matchLoop thr dets tracks u).2.1.Sublist u ∧
    (∀ j ∈ (matchLoop thr dets tracks u).2.2.map Prod.snd, j ∈ u) ∧
    (u.Nodup → ((matchLoop thr dets tracks u).2.2.map Prod.snd).Nodup) ∧
    (∀ q ∈ (matchLoop thr dets tracks u).1,
      q ∈ tracks ∨
        (q.1 ∈ (matchLoop thr dets tracks u).2.2.map Prod.fst ∧
          ∃ tr0, (q.1, tr0) ∈ tracks ∧ q.2.track_id = tr0.track_id ∧
            q.2.player.track_id = q.1 ∧ q.2.lost_frames = 0)) ∧
    (∀ p ∈ tracks, p.1 ∉ (matchLoop thr dets tracks u).2.2.map Prod.fst →
      p ∈ (matchLoop thr dets tracks u).1) := by
  intro tracks
  induction tracks with
  | nil =>
    intro u
    refine ⟨rfl, ?_, ?_, ?_, ?_, ?_, ?_⟩ <;> simp [matchLoop]
  | cons q rest ih =>
    obtain ⟨tid, tr⟩ := q
    intro u
    by_cases hu : u = []
    · subst hu
      rw [matchLoop_cons_break]
      refine ⟨rfl, by simp, by simp, by simp, by simp, ?_, ?_⟩
      · exact fun q hq => Or.inl hq
      · exact fun p hp _ => hp
    · by_cases hth : thr ≤ (bestMatch tr.player.detection dets u).1
      · cases hbm : (bestMatch tr.player.detection dets u).2 with
        | none =>
          rw [matchLoop_cons_skip thr dets tid tr rest u hu (Or.inr hbm)]
          have h := ih u
          refine ⟨?_, ?_, h.2.2.1, h.2.2.2.1, h.2.2.2.2.1, ?_, ?_⟩
          · simp only [List.map_cons, h.1]
          · exact h.2.1.cons _
          · intro p hp
            rcases List.mem_cons.mp hp with h1 | h1
            · exact Or.inl (h1 ▸ List.mem_cons_self _ _)
            · rcases h.2.2.2.2.2.1 p h1 with h2 | ⟨h2, tr0, h3, h4⟩
              · exact Or.inl (List.mem_cons_of_mem _ h2)
              · exact Or.inr ⟨h2, tr0, List.mem_cons_of_mem _ h3, h4⟩
          · intro p hp hnb
            rcases List.mem_cons.mp hp with h1 | h1
            · exact h1 ▸ List.mem_cons_self _ _
            · exact List.mem_cons_of_mem _ (h.2.2.2.2.2.2 p h1 hnb)
        | some j =>
          have hjmem : j ∈ u := bestMatch_some_mem _ _ _ _ hbm
          rw [matchLoop_cons_bind thr dets tid tr rest u j hu hth hbm]
          have h := ih (u.erase j)
          refine ⟨?_, ?_, ?_, ?_, ?_, ?_, ?_⟩
          · simp only [List.map_cons, h.1]
          · simp only [List.map_cons]
            exact (h.2.1).cons₂ _
          · exact (h.2.2.1).trans (List.erase_sublist j u)
          · intro k hk
            simp only [List.map_cons] at hk
            rcases List.mem_cons.mp hk with h1 | h1
            · exact h1 ▸ hjmem
            · exact List.mem_of_mem_erase (h.2.2.2.1 k h1)
          · intro hnd
            simp only [List.map_cons]
            rw [List.nodup_cons]
            refine ⟨?_, h.2.2.2.2.1 (hnd.erase j)⟩
            intro hmem
            have := h.2.2.2.1 j hmem
            exact (List.Nodup.not_mem_erase hnd) this
          · intro p hp
            rcases List.mem_cons.mp hp with h1 | h1
            · subst h1
              exact Or.inr ⟨by simp, tr, List.mem_cons_self _ _, rfl, rfl, rfl⟩
            · rcases h.2.2.2.2.2.1 p h1 with h2 | ⟨h2, tr0, h3, h4⟩
              · exact Or.inl (List.mem_cons_of_mem _ h2)
              · refine Or.inr ⟨?_, tr0, List.mem_cons_of_mem _ h3, h4⟩
                simp only [List.map_cons]
                exact List.mem_cons_of_mem _ h2
          · intro p hp hnb
            simp only [List.map_cons] at hnb
            rcases List.mem_cons.mp hp with h1 | h1
            · exfalso
              exact hnb (by rw [h1]; exact List.mem_cons_self _ _)
            · refine List.mem_cons_of_mem _ (h.2.2.2.2.2.2 p h1 ?_)
              intro hx
              exact hnb (List.mem_cons_of_mem _ hx)
      · rw [matchLoop_cons_skip thr dets tid tr rest u hu (Or.inl hth)]
        have h := ih u
        refine ⟨?_, ?_, h.2.2.1, h.2.2.2.1, h.2.2.2.2.1, ?_, ?_⟩
        · simp only [List.map_cons, h.1]
        · exact h.2.1.cons _
        · intro p hp
          rcases List.mem_cons.mp hp with h1 | h1
          · exact Or.inl (h1 ▸ List.mem_cons_self _ _)
          · rcases h.2.2.2.2.2.1 p h1 with h2 | ⟨h2, tr0, h3, h4⟩
            · exact Or.inl (List.mem_cons_of_mem _ h2)
            · exact Or.inr ⟨h2, tr0, List.mem_cons_of_mem _ h3, h4⟩
        · intro p hp hnb
          rcases List.mem_cons.mp hp with h1 | h1
          · exact h1 ▸ List.mem_cons_self _ _
          · exact List.mem_cons_of_mem _ (h.2.2.2.2.2.2 p h1 hnb)

/-- Structural facts about the aging pass: keys form a sublist; every
output entry is an input entry aged by at most one; matched entries pass
through unchanged; an unmatched entry is aged when within the limit and
dropped past it (its key disappearing entirely when keys are distinct). -/
theorem loseStep_spec (ml : ℕ) (matched : List (ℤ × ℕ)) :
    ∀ tracks : List (ℤ × TrackedPlayer),
    ((loseStep ml matched tracks).map Prod.fst).Sublist (tracks.map Prod.fst) ∧
    (∀ q ∈ loseStep ml matched tracks,
      ∃ tr0, (q.1, tr0) ∈ tracks ∧
        (q.2 = tr0 ∨ q.2 = { tr0 with lost_frames := tr0.lost_frames + 1 })) ∧
    (∀ q ∈ tracks, q.1 ∈ matched.map Prod.fst → q ∈ loseStep ml matched tracks) ∧
    (∀ q ∈ tracks, q.1 ∉ matched.map Prod.fst → q.2.lost_frames + 1 ≤ ml →
      (q.1, { q.2 with lost_frames := q.2.lost_frames + 1 }) ∈
        loseStep ml matched tracks) ∧
    ((tracks.map Prod.fst).Nodup → ∀ q ∈ tracks, q.1 ∉ matched.map Prod.fst →
      ml < q.2.lost_frames + 1 →
      q.1 ∉ (loseStep ml matched tracks).map Prod.fst) ∧
    (∀ q ∈ loseStep ml matched tracks, q.2.lost_frames ≤ ml ∨ q ∈ tracks) := by
  intro tracks
  induction tracks with
  | nil =>
    exact ⟨by simp [loseStep], by simp [loseStep], by simp, by simp, by simp [loseStep],
      by simp [loseStep]⟩
  | cons p t ih =>
    have hcons : loseStep ml matched (p :: t) =
        (if p.1 ∈ matched.map Prod.fst then some p
         else
           let tr2 := { p.2 with lost_frames := p.2.lost_frames + 1 }
           if ml < tr2.lost_frames then none else some (p.1, tr2)).toList ++
          loseStep ml matched t := by
      simp [loseStep, List.filterMap_cons]
      by_cases hm : p.1 ∈ matched.map Prod.fst
      · rw [if_pos hm]
        simp
      · rw [if_neg hm]
        by_cases hl : ml < p.2.lost_frames + 1
        · rw [if_pos hl]
          simp
        · rw [if_neg hl]
          simp
    by_cases hm : p.1 ∈ matched.map Prod.fst
    · rw [hcons, if_pos hm]
      simp only [Option.toList_some, List.singleton_append]
      refine ⟨?_, ?_, ?_, ?_, ?_, ?_⟩
      · simp only [List.map_cons]
        exact ih.1.cons₂ _
      · intro q hq
        rcases List.mem_cons.mp hq with h1 | h1
        · exact ⟨p.2, by rw [h1]; exact List.mem_cons_self p t, Or.inl (by rw [h1])⟩
        · obtain ⟨tr0, h2, h3⟩ := ih.2.1 q h1
          exact ⟨tr0, List.mem_cons_of_mem _ h2, h3⟩
      · intro q hq hqm
        rcases List.mem_cons.mp hq with h1 | h1
        · exact h1 ▸ List.mem_cons_self _ _
        · exact List.mem_cons_of_mem _ (ih.2.2.1 q h1 hqm)
      · intro q hq hqm hql
        rcases List.mem_cons.mp hq with h1 | h1
        · exact absurd (h1 ▸ hm) hqm
        · exact List.mem_cons_of_mem _ (ih.2.2.2.1 q h1 hqm hql)
      · intro hnd q hq hqm hql
        rcases List.mem_cons.mp hq with h1 | h1
        · exact absurd (h1 ▸ hm) hqm
        · have hq1 : q.1 ≠ p.1 := by
            intro hx
            exact (List.nodup_cons.mp hnd).1 (hx ▸ List.mem_map_of_mem Prod.fst h1)
          intro hmem
          simp only [List.map_cons, List.mem_cons] at hmem
          rcases hmem with h2 | h2
          · exact hq1 h2
          · exact (ih.2.2.2.2.1 (List.nodup_cons.mp hnd).2 q h1 hqm hql) h2
      · intro q hq
        rcases List.mem_cons.mp hq with h1 | h1
        · exact Or.inr (h1 ▸ List.mem_cons_self p t)
        · rcases ih.2.2.2.2.2 q h1 with h2 | h2
          · exact Or.inl h2
          · exact Or.inr (List.mem_cons_of_mem _ h2)
    · by_cases hl : ml < p.2.lost_frames + 1
      · rw [hcons, if_neg hm]
        simp only [if_pos hl, Option.toList_none, List.nil_append]
        refine ⟨?_, ?_, ?_, ?_, ?_, ?_⟩
        · exact ih.1.trans ((List.map Prod.fst t).sublist_cons_self p.1)
        · intro q hq
          obtain ⟨tr0, h2, h3⟩ := ih.2.1 q hq
          exact ⟨tr0, List.mem_cons_of_mem _ h2, h3⟩
        · intro q hq hqm
          rcases List.mem_cons.mp hq with h1 | h1
          · exact absurd (h1 ▸ hqm) hm
          · exact ih.2.2.1 q h1 hqm
        · intro q hq hqm hql
          rcases List.mem_cons.mp hq with h1 | h1
          · exfalso
            rw [h1] at hql
            omega
          · exact ih.2.2.2.1 q h1 hqm hql
        · intro hnd q hq hqm hql
          rcases List.mem_cons.mp hq with h1 | h1
          · rw [h1]
            intro hmem
            have := ih.1.subset hmem
            exact (List.nodup_cons.mp hnd).1 this
          · exact ih.2.2.2.2.1 (List.nodup_cons.mp hnd).2 q h1 hqm hql
        · intro q hq
          rcases ih.2.2.2.2.2 q hq with h2 | h2
          · exact Or.inl h2
          · exact Or.inr (List.mem_cons_of_mem _ h2)
      · rw [hcons, if_neg hm]
        simp only [if_neg hl, Option.toList_some, List.singleton_append]
        refine ⟨?_, ?_, ?_, ?_, ?_, ?_⟩
        · simp only [List.map_cons]
          exact ih.1.cons₂ _
        · intro q hq
          rcases List.mem_cons.mp hq with h1 | h1
          · exact ⟨p.2, by rw [h1]; exact List.mem_cons_self p t, Or.inr (by rw [h1])⟩
          · obtain ⟨tr0, h2, h3⟩ := ih.2.1 q h1
            exact ⟨tr0, List.mem_cons_of_mem _ h2, h3⟩
        · intro q hq hqm
          rcases List.mem_cons.mp hq with h1 | h1
          · exact absurd (h1 ▸ hqm) hm
          · exact List.mem_cons_of_mem _ (ih.2.2.1 q h1 hqm)
        · intro q hq hqm hql
          rcases List.mem_cons.mp hq with h1 | h1
          · rw [h1]
            exact List.mem_cons_self _ _
          · exact List.mem_cons_of_mem _ (ih.2.2.2.1 q h1 hqm hql)
        · intro hnd q hq hqm hql
          rcases List.mem_cons.mp hq with h1 | h1
          · exfalso
            rw [h1] at hql
            omega
          · have hq1 : q.1 ≠ p.1 := by
              intro hx
              exact (List.nodup_cons.mp hnd).1 (hx ▸ List.mem_map_of_mem Prod.fst h1)
            intro hmem
            simp only [List.map_cons, List.mem_cons] at hmem
            rcases hmem with h2 | h2
            · exact hq1 h2
            · exact (ih.2.2.2.2.1 (List.nodup_cons.mp hnd).2 q h1 hqm hql) h2
        · intro q hq
          rcases List.mem_cons.mp hq with h1 | h1
          · refine Or.inl ?_
            rw [h1]
            simpa using le_of_not_lt hl
          · rcases ih.2.2.2.2.2 q h1 with h2 | h2
            · exact Or.inl h2
            · exact Or.inr (List.mem_cons_of_mem _ h2)

/-- Structural facts about the new-track pass: the advanced counter, the
entries' strictly increasing fresh keys, and their fields. -/
theorem addNew_spec (dets : List PlayerInfo) :
    ∀ (u : List ℕ) (nid : ℤ),
    (addNew dets nid u).2 = nid + u.length ∧
    List.Pairwise (· < ·) ((addNew dets nid u).1.map Prod.fst) ∧
    (∀ q ∈ (addNew dets nid u).1, nid ≤ q.1 ∧ q.1 < nid + u.length ∧
      q.2.track_id = q.1 ∧ q.2.player.track_id = q.1 ∧ q.2.lost_frames = 0) := by
  intro u
  induction u with
  | nil => exact fun nid => ⟨by simp [addNew], by simp [addNew], by simp [addNew]⟩
  | cons i rest ih =>
    intro nid
    have h := ih (nid + 1)
    refine ⟨?_, ?_, ?_⟩
    · show (addNew dets (nid + 1) rest).2 = nid + (rest.length + 1 : ℕ)
      rw [h.1]
      push_cast
      ring
    · show List.Pairwise (· < ·) (nid :: (addNew dets (nid + 1) rest).1.map Prod.fst)
      rw [List.pairwise_cons]
      refine ⟨?_, h.2.1⟩
      intro a ha
      obtain ⟨q, hq, hq2⟩ := List.mem_map.mp ha
      have := (h.2.2 q hq).1
      omega
    · intro q hq
      rcases List.mem_cons.mp hq with h1 | h1
      · refine ⟨by rw [h1], ?_, by rw [h1], by rw [h1], by rw [h1]⟩
        rw [h1]
        simp only [List.length_cons]
        push_cast
        omega
      · obtain ⟨ha, hb, hc, hd, he⟩ := h.2.2 q h1
        refine ⟨by omega, ?_, hc, hd, he⟩
        simp only [List.length_cons]
        push_cast
        omega

/-- An update does not touch the configuration fields. -/
theorem update_config (st : SimpleTracker) (f : FrameDetections) :
    (SimpleTracker.update st f).1.max_lost = st.max_lost ∧
    (SimpleTracker.update st f).1.iou_threshold = st.iou_threshold := by
  cases hb : f.ball <;> simp [SimpleTracker.update, ballStep, hb]

/-- One update preserves the invariant, never decreases the identity
counter, leaves only previously-present or freshly-issued ids in the
table, and issues exactly the new-track pass's keys: a strictly increasing
block of fresh ids. -/
theorem update_step_spec (st : SimpleTracker) (f : FrameDetections)
    (hinv : TrackerInv st) :
    TrackerInv (SimpleTracker.update st f).1 ∧
    st.next_id ≤ (SimpleTracker.update st f).1.next_id ∧
    (∀ tid ∈ (SimpleTracker.update st f).1.players.map Prod.fst,
      tid ∈ st.players.map Prod.fst ∨
        (st.next_id ≤ tid ∧ tid < (SimpleTracker.update st f).1.next_id)) ∧
    List.Pairwise (· < ·) (newIds st f) ∧
    (∀ tid ∈ newIds st f, st.next_id ≤ tid ∧ tid < (SimpleTracker.update st f).1.next_id) := by
  have hMdef : trackMatch st f =
      matchLoop st.iou_threshold f.players st.players (List.range f.players.length) := rfl
  have hm := matchLoop_spec st.iou_threshold f.players st.players
    (List.range f.players.length)
  rw [← hMdef] at hm
  have hl := loseStep_spec st.max_lost (trackMatch st f).2.2 (trackMatch st f).1
  have ha := addNew_spec f.players (trackMatch st f).2.1 st.next_id
  have hplayers : (SimpleTracker.update st f).1.players =
      loseStep st.max_lost (trackMatch st f).2.2 (trackMatch st f).1 ++
        (addNew f.players st.next_id (trackMatch st f).2.1).1 := rfl
  have hnext : (SimpleTracker.update st f).1.next_id =
      st.next_id + (trackMatch st f).2.1.length := by
    have : (SimpleTracker.update st f).1.next_id =
        (addNew f.players st.next_id (trackMatch st f).2.1).2 := rfl
    rw [this, ha.1]
  have hLkeys : ((loseStep st.max_lost (trackMatch st f).2.2
      (trackMatch st f).1).map Prod.fst).Sublist (st.players.map Prod.fst) := by
    have := hl.1
    rw [hm.1] at this
    exact this
  have hnextmono : st.next_id ≤ (SimpleTracker.update st f).1.next_id := by
    rw [hnext]
    omega
  -- every entry of the matched table is an old entry or a reset old-keyed one
  have hMent : ∀ q ∈ (trackMatch st f).1,
      (q.1, q.2) ∈ st.players ∨
        ∃ tr0, (q.1, tr0) ∈ st.players ∧ q.2.track_id = tr0.track_id ∧
          q.2.player.track_id = q.1 ∧ q.2.lost_frames = 0 := by
    intro q hq
    rcases hm.2.2.2.2.2.1 q hq with h1 | ⟨_, tr0, h2, h3⟩
    · exact Or.inl h1
    · exact Or.inr ⟨tr0, h2, h3⟩
  -- aged-table entries: key is an old key, ids consistent, counter bounded
  have hLent : ∀ q ∈ loseStep st.max_lost (trackMatch st f).2.2 (trackMatch st f).1,
      q.1 ∈ st.players.map Prod.fst ∧ q.2.track_id = q.1 ∧
        q.2.player.track_id = q.1 ∧ q.2.lost_frames ≤ st.max_lost := by
    intro q hq
    obtain ⟨tr0, hq0, hcase⟩ := hl.2.1 q hq
    have hkey : q.1 ∈ st.players.map Prod.fst := by
      have h0 : ((q.1, tr0)).1 ∈ (trackMatch st f).1.map Prod.fst :=
        List.mem_map_of_mem Prod.fst hq0
      rw [hm.1] at h0
      exact h0
    have hids0 : tr0.track_id = q.1 ∧ tr0.player.track_id = q.1 ∧
        tr0.lost_frames ≤ st.max_lost := by
      rcases hMent (q.1, tr0) hq0 with h1 | ⟨tr1, h2, h3, h4, h5⟩
      · exact ⟨(hinv.2.2.1 _ h1).1, (hinv.2.2.1 _ h1).2, hinv.2.2.2 _ h1⟩
      · exact ⟨h3.trans (hinv.2.2.1 _ h2).1, h4, h5 ▸ Nat.zero_le _⟩
    have hbound : q.2.lost_frames ≤ st.max_lost := by
      rcases hl.2.2.2.2.2 q hq with h1 | h1
      · exact h1
      · rcases hMent (q.1, q.2) h1 with h2 | ⟨tr1, h2, _, _, h5⟩
        · exact hinv.2.2.2 _ h2
        · rw [h5]
          exact Nat.zero_le _
    rcases hcase with h1 | h1
    · exact ⟨hkey, h1 ▸ hids0.1, h1 ▸ hids0.2.1, hbound⟩
    · refine ⟨hkey, ?_, ?_, hbound⟩
      · rw [h1]
        exact hids0.1
      · rw [h1]
        exact hids0.2.1
  -- fresh keys are outside the old table
  have hAfresh : ∀ q ∈ (addNew f.players st.next_id (trackMatch st f).2.1).1,
      q.1 ∉ st.players.map Prod.fst := by
    intro q hq hmem
    obtain ⟨q0, hq0, hq0e⟩ := List.mem_map.mp hmem
    have h1 := hinv.1 q0 hq0
    have h2 := (ha.2.2 q hq).1
    omega
  have hnew : TrackerInv (SimpleTracker.update st f).1 := by
    refine ⟨?_, ?_, ?_, ?_⟩
    · intro q hq
      rw [hplayers] at hq
      rw [hnext]
      rcases List.mem_append.mp hq with h1 | h1
      · have := (hLent q h1).1
        obtain ⟨q0, hq0, hq0e⟩ := List.mem_map.mp this
        have := hinv.1 q0 hq0
        omega
      · exact (ha.2.2 q h1).2.1
    · rw [hplayers, List.map_append]
      rw [List.nodup_append]
      refine ⟨hLkeys.nodup hinv.2.1, (ha.2.1).nodup, ?_⟩
      intro a haL haA
      obtain ⟨q, hq, hqe⟩ := List.mem_map.mp haL
      obtain ⟨q2, hq2, hq2e⟩ := List.mem_map.mp haA
      have h1 := (hLent q hq).1
      obtain ⟨q0, hq0, hq0e⟩ := List.mem_map.mp h1
      have h2 := hinv.1 q0 hq0
      have h3 := (ha.2.2 q2 hq2).1
      omega
    · intro q hq
      rw [hplayers] at hq
      rcases List.mem_append.mp hq with h1 | h1
      · exact ⟨(hLent q h1).2.1, (hLent q h1).2.2.1⟩
      · exact ⟨(ha.2.2 q h1).2.2.1, (ha.2.2 q h1).2.2.2.1⟩
    · intro q hq
      rw [hplayers] at hq
      rw [(update_config st f).1]
      rcases List.mem_append.mp hq with h1 | h1
      · exact (hLent q h1).2.2.2
      · rw [(ha.2.2 q h1).2.2.2.2]
        exact Nat.zero_le _
  have hkeysplit : ∀ tid ∈ (SimpleTracker.update st f).1.players.map Prod.fst,
      tid ∈ st.players.map Prod.fst ∨
        (st.next_id ≤ tid ∧ tid < (SimpleTracker.update st f).1.next_id) := by
    intro tid htid
    rw [hplayers, List.map_append] at htid
    rcases List.mem_append.mp htid with h1 | h1
    · obtain ⟨q, hq, hqe⟩ := List.mem_map.mp h1
      exact Or.inl (hqe ▸ (hLent q hq).1)
    · obtain ⟨q, hq, hqe⟩ := List.mem_map.mp h1
      refine Or.inr ⟨hqe ▸ (ha.2.2 q hq).1, ?_⟩
      rw [hnext]
      have := (ha.2.2 q hq).2.1
      omega
  have hnewIds : newIds st f =
      (addNew f.players st.next_id (trackMatch st f).2.1).1.map Prod.fst := by
    unfold newIds
    rw [hplayers, List.map_append, List.filter_append]
    have hleft : ((loseStep st.max_lost (trackMatch st f).2.2
        (trackMatch st f).1).map Prod.fst).filter
          (fun tid => tid ∉ st.players.map Prod.fst) = [] := by
      rw [List.filter_eq_nil_iff]
      intro a haL
      obtain ⟨q, hq, hqe⟩ := List.mem_map.mp haL
      simp only [decide_eq_true_eq, not_not, Decidable.not_not]
      exact hqe ▸ (hLent q hq).1
    have hright : ((addNew f.players st.next_id (trackMatch st f).2.1).1.map
        Prod.fst).filter (fun tid => tid ∉ st.players.map Prod.fst) =
        (addNew f.players st.next_id (trackMatch st f).2.1).1.map Prod.fst := by
      rw [List.filter_eq_self]
      intro a haA
      obtain ⟨q, hq, hqe⟩ := List.mem_map.mp haA
      simp only [decide_eq_true_eq]
      exact hqe ▸ hAfresh q hq
    rw [hleft, hright, List.nil_append]
  refine ⟨hnew, hnextmono, hkeysplit, ?_, ?_⟩
  · rw [hnewIds]
    exact ha.2.1
  · intro tid htid
    rw [hnewIds] at htid
    obtain ⟨q, hq, hqe⟩ := List.mem_map.mp htid
    refine ⟨hqe ▸ (ha.2.2 q hq).1, ?_⟩
    rw [hnext]
    have := (ha.2.2 q hq).2.1
    omega

/-- The freshly constructed tracker satisfies the invariant. -/
theorem defaultInit_inv : TrackerInv SimpleTracker.defaultInit := by
  refine ⟨?_, ?_, ?_, ?_⟩ <;> simp [SimpleTracker.defaultInit]

/-- A run preserves the invariant and never decreases the counter. -/
theorem runTracker_inv (fs : List FrameDetections) :
    ∀ st : SimpleTracker, TrackerInv st →
    TrackerInv (runTracker st fs) ∧ st.next_id ≤ (runTracker st fs).next_id := by
  induction fs with
  | nil => exact fun st h => ⟨h, le_rfl⟩
  | cons f rest ih =>
    intro st h
    have h1 := update_step_spec st f h
    have h2 := ih (SimpleTracker.update st f).1 h1.1
    exact ⟨h2.1, le_trans h1.2.1 h2.2⟩

/-- Identities issued over a run are strictly increasing and fall between
the run's starting and final counters. -/
theorem issued_spec (fs : List FrameDetections) :
    ∀ st : SimpleTracker, TrackerInv st →
    List.Pairwise (· < ·) (issuedIds st fs) ∧
    (∀ tid ∈ issuedIds st fs,
      st.next_id ≤ tid ∧ tid < (runTracker st fs).next_id) := by
  induction fs with
  | nil => exact fun st _ => ⟨by simp [issuedIds], by simp [issuedIds]⟩
  | cons f rest ih =>
    intro st h
    have h1 := update_step_spec st f h
    have h2 := ih (SimpleTracker.update st f).1 h1.1
    have hrest_next : (SimpleTracker.update st f).1.next_id ≤
        (runTracker (SimpleTracker.update st f).1 rest).next_id :=
      (runTracker_inv rest _ h1.1).2
    have hcons : issuedIds st (f :: rest) =
        newIds st f ++ issuedIds (SimpleTracker.update st f).1 rest := rfl
    have hrun : runTracker st (f :: rest) =
        runTracker (SimpleTracker.update st f).1 rest := rfl
    rw [hcons, hrun]
    constructor
    · rw [List.pairwise_append]
      refine ⟨h1.2.2.2.1, h2.1, ?_⟩
      intro a ha b hb
      have hA := (h1.2.2.2.2 a ha).2
      have hB := (h2.2 b hb).1
      omega
    · intro tid htid
      rcases List.mem_append.mp htid with h3 | h3
      · have := h1.2.2.2.2 tid h3
        omega
      · have := h2.2 tid h3
        have := h1.2.1
        omega

/-- C6: over every run of the tracker, the identities issued are strictly
increasing — each issued once and never reused, even after deletion — and
on any single frame the greedy matching is injective on both sides: the
bound track ids are pairwise distinct and so are the bound detection
indices. -/
theorem tracker_identity_spec (fs : List FrameDetections) (f : FrameDetections) :
    List.Pairwise (· < ·) (issuedIds SimpleTracker.defaultInit (fs ++ [f])) ∧
    ((frameBindings (runTracker SimpleTracker.defaultInit fs) f).map Prod.fst).Nodup ∧
    ((frameBindings (runTracker SimpleTracker.defaultInit fs) f).map Prod.snd).Nodup := by
  have hrun := runTracker_inv fs SimpleTracker.defaultInit defaultInit_inv
  have hm := matchLoop_spec (runTracker SimpleTracker.defaultInit fs).iou_threshold
    f.players (runTracker SimpleTracker.defaultInit fs).players
    (List.range f.players.length)
  refine ⟨(issued_spec (fs ++ [f]) SimpleTracker.defaultInit defaultInit_inv).1, ?_, ?_⟩
  · exact (hm.2.1).nodup hrun.1.2.1
  · exact hm.2.2.2.2.1 (List.nodup_range _)

/-- With distinct keys, the table has at most one entry per id. -/
theorem entry_unique {l : List (ℤ × TrackedPlayer)} (hnd : (l.map Prod.fst).Nodup)
    {tid : ℤ} {a b : TrackedPlayer} (ha : (tid, a) ∈ l) (hb : (tid, b) ∈ l) :
    a = b :=
  congrArg Prod.snd (List.inj_on_of_nodup_map hnd ha hb rfl)

/-- A track that goes unbound this frame while within the lost-frame limit
stays in the table with its counter aged by one. -/
theorem survive_one (st : SimpleTracker) (f : FrameDetections) (tid : ℤ)
    (tr : TrackedPlayer) (_hinv : TrackerInv st) (hmem : (tid, tr) ∈ st.players)
    (hnb : tid ∉ (frameBindings st f).map Prod.fst)
    (hb : tr.lost_frames + 1 ≤ st.max_lost) :
    (tid, { tr with lost_frames := tr.lost_frames + 1 }) ∈
      (SimpleTracker.update st f).1.players := by
  have hMdef : trackMatch st f =
      matchLoop st.iou_threshold f.players st.players (List.range f.players.length) := rfl
  have hm := matchLoop_spec st.iou_threshold f.players st.players
    (List.range f.players.length)
  rw [← hMdef] at hm
  have hpass : (tid, tr) ∈ (trackMatch st f).1 :=
    hm.2.2.2.2.2.2 (tid, tr) hmem hnb
  have hl := loseStep_spec st.max_lost (trackMatch st f).2.2 (trackMatch st f).1
  have haged := hl.2.2.2.1 (tid, tr) hpass hnb hb
  have hplayers : (SimpleTracker.update st f).1.players =
      loseStep st.max_lost (trackMatch st f).2.2 (trackMatch st f).1 ++
        (addNew f.players st.next_id (trackMatch st f).2.1).1 := rfl
  rw [hplayers]
  exact List.mem_append_left _ haged

/-- A track that goes unbound this frame having already reached the
lost-frame limit disappears from the table. -/
theorem expire_one (st : SimpleTracker) (f : FrameDetections) (tid : ℤ)
    (tr : TrackedPlayer) (hinv : TrackerInv st) (hmem : (tid, tr) ∈ st.players)
    (hnb : tid ∉ (frameBindings st f).map Prod.fst)
    (hb : st.max_lost < tr.lost_frames + 1) :
    tid ∉ (SimpleTracker.update st f).1.players.map Prod.fst := by
  have hMdef : trackMatch st f =
      matchLoop st.iou_threshold f.players st.players (List.range f.players.length) := rfl
  have hm := matchLoop_spec st.iou_threshold f.players st.players
    (List.range f.players.length)
  rw [← hMdef] at hm
  have hpass : (tid, tr) ∈ (trackMatch st f).1 :=
    hm.2.2.2.2.2.2 (tid, tr) hmem hnb
  have hl := loseStep_spec st.max_lost (trackMatch st f).2.2 (trackMatch st f).1
  have hMnd : ((trackMatch st f).1.map Prod.fst).Nodup := by
    rw [hm.1]
    exact hinv.2.1
  have hgoneL := hl.2.2.2.2.1 hMnd (tid, tr) hpass hnb hb
  have ha := addNew_spec f.players (trackMatch st f).2.1 st.next_id
  have hplayers : (SimpleTracker.update st f).1.players =
      loseStep st.max_lost (trackMatch st f).2.2 (trackMatch st f).1 ++
        (addNew f.players st.next_id (trackMatch st f).2.1).1 := rfl
  rw [hplayers, List.map_append]
  intro hx
  rcases List.mem_append.mp hx with h1 | h1
  · exact hgoneL h1
  · obtain ⟨q, hq, hqe⟩ := List.mem_map.mp h1
    have h2 := (ha.2.2 q hq).1
    have h3 := hinv.1 (tid, tr) hmem
    omega

/-- An id absent from the table and below the counter never returns. -/
theorem never_return (fs : List FrameDetections) :
    ∀ (st : SimpleTracker) (tid : ℤ), TrackerInv st →
    tid ∉ st.players.map Prod.fst → tid < st.next_id →
    tid ∉ (runTracker st fs).players.map Prod.fst := by
  induction fs with
  | nil => exact fun st tid _ h _ => h
  | cons f rest ih =>
    intro st tid hinv habs hlt
    have hstep := update_step_spec st f hinv
    have habs2 : tid ∉ (SimpleTracker.update st f).1.players.map Prod.fst := by
      intro hx
      rcases hstep.2.2.1 tid hx with h1 | h1
      · exact habs h1
      · omega
    exact ih (SimpleTracker.update st f).1 tid hstep.1 habs2 (lt_of_lt_of_le hlt hstep.2.1)

/-- A track unbound over a whole run within the limit survives with its
counter advanced by the run length. -/
theorem survive_run (fs : List FrameDetections) :
    ∀ (st : SimpleTracker) (tid : ℤ) (tr : TrackedPlayer), TrackerInv st →
    (tid, tr) ∈ st.players → NeverBound tid st fs →
    tr.lost_frames + fs.length ≤ st.max_lost →
    (tid, { tr with lost_frames := tr.lost_frames + fs.length }) ∈
      (runTracker st fs).players := by
  induction fs with
  | nil =>
    intro st tid tr _ hmem _ _
    exact hmem
  | cons f rest ih =>
    intro st tid tr hinv hmem hnb hbound
    obtain ⟨hnb1, hnb2⟩ := hnb
    have hlen : (f :: rest).length = rest.length + 1 := rfl
    have hb1 : tr.lost_frames + 1 ≤ st.max_lost := by
      rw [hlen] at hbound
      omega
    have hmem1 := survive_one st f tid tr hinv hmem hnb1 hb1
    have hinv1 := (update_step_spec st f hinv).1
    have hml : (SimpleTracker.update st f).1.max_lost = st.max_lost :=
      (update_config st f).1
    have hres := ih (SimpleTracker.update st f).1 tid
      { tr with lost_frames := tr.lost_frames + 1 } hinv1 hmem1 hnb2
      (by rw [hml]; rw [hlen] at hbound; simpa using (by omega :
        tr.lost_frames + 1 + rest.length ≤ st.max_lost))
    have harith : tr.lost_frames + 1 + rest.length =
        tr.lost_frames + (f :: rest).length := by
      rw [hlen]
      omega
    have hrunstep : runTracker st (f :: rest) =
        runTracker (SimpleTracker.update st f).1 rest := rfl
    rw [hrunstep, ← harith]
    exact hres

/-- A track unbound over a whole run that exceeds the limit is removed
from the table for good. -/
theorem expire_run (fs : List FrameDetections) :
    ∀ (st : SimpleTracker) (tid : ℤ) (tr : TrackedPlayer), TrackerInv st →
    (tid, tr) ∈ st.players → NeverBound tid st fs →
    st.max_lost < tr.lost_frames + fs.length →
    tid ∉ (runTracker st fs).players.map Prod.fst := by
  induction fs with
  | nil =>
    intro st tid tr hinv hmem _ hbound
    have h4 : tr.lost_frames ≤ st.max_lost := hinv.2.2.2 (tid, tr) hmem
    simp only [List.length_nil, Nat.add_zero] at hbound
    omega
  | cons f rest ih =>
    intro st tid tr hinv hmem hnb hbound
    obtain ⟨hnb1, hnb2⟩ := hnb
    have hinv1 := (update_step_spec st f hinv).1
    have hrunstep : runTracker st (f :: rest) =
        runTracker (SimpleTracker.update st f).1 rest := rfl
    rw [hrunstep]
    by_cases hdel : st.max_lost < tr.lost_frames + 1
    · have hgone := expire_one st f tid tr hinv hmem hnb1 hdel
      have hlt : tid < (SimpleTracker.update st f).1.next_id :=
        lt_of_lt_of_le (hinv.1 (tid, tr) hmem) (update_step_spec st f hinv).2.1
      exact never_return rest (SimpleTracker.update st f).1 tid hinv1 hgone hlt
    · have hb1 : tr.lost_frames + 1 ≤ st.max_lost := by omega
      have hmem1 := survive_one st f tid tr hinv hmem hnb1 hb1
      have hml : (SimpleTracker.update st f).1.max_lost = st.max_lost :=
        (update_config st f).1
      refine ih (SimpleTracker.update st f).1 tid
        { tr with lost_frames := tr.lost_frames + 1 } hinv1 hmem1 hnb2 ?_
      rw [hml]
      have : (f :: rest).length = rest.length + 1 := rfl
      rw [this] at hbound
      simp only []
      omega

/-- The per-frame output contains a player under id `tid` exactly when the
post-update table has a `lost_frames = 0` entry under that id. -/
theorem output_iff (st : SimpleTracker) (f : FrameDetections)
    (hinv : TrackerInv st) (tid : ℤ) :
    (∃ p ∈ (SimpleTracker.update st f).2.players, p.track_id = tid) ↔
    (∃ tr, (tid, tr) ∈ (SimpleTracker.update st f).1.players ∧
      tr.lost_frames = 0) := by
  have hinv2 := (update_step_spec st f hinv).1
  have hout : (SimpleTracker.update st f).2.players =
      ((SimpleTracker.update st f).1.players.filter
        (fun q => q.2.lost_frames = 0)).map (fun q => q.2.player) := rfl
  constructor
  · rintro ⟨p, hp, hpt⟩
    rw [hout] at hp
    obtain ⟨q, hq, hqe⟩ := List.mem_map.mp hp
    have hqf := List.mem_filter.mp hq
    have hcons := hinv2.2.2.1 q hqf.1
    have hqt : q.1 = tid := by
      rw [← hcons.2, hqe, hpt]
    refine ⟨q.2, ?_, of_decide_eq_true hqf.2⟩
    rw [← hqt]
    exact hqf.1
  · rintro ⟨tr, htr, hlost⟩
    rw [hout]
    refine ⟨tr.player, ?_, (hinv2.2.2.1 (tid, tr) htr).2⟩
    exact List.mem_map_of_mem _ (List.mem_filter.mpr ⟨htr, by simp [hlost]⟩)

/-- Every binding leaves a reset (`lost_frames = 0`) entry under the bound
track's id in the matched table. -/
theorem matchLoop_bind_entry (thr : ℚ) (dets : List PlayerInfo) :
    ∀ (tracks : List (ℤ × TrackedPlayer)) (u : List ℕ),
    ∀ b ∈ (matchLoop thr dets tracks u).2.2,
    ∃ tr2, (b.1, tr2) ∈ (matchLoop thr dets tracks u).1 ∧ tr2.lost_frames = 0 := by
  intro tracks
  induction tracks with
  | nil => intro u b hb; simp [matchLoop] at hb
  | cons q rest ih =>
    obtain ⟨tid, tr⟩ := q
    intro u b hb
    by_cases hu : u = []
    · subst hu
      rw [matchLoop_cons_break] at hb
      simp at hb
    · by_cases hth : thr ≤ (bestMatch tr.player.detection dets u).1
      · cases hbm : (bestMatch tr.player.detection dets u).2 with
        | none =>
          rw [matchLoop_cons_skip thr dets tid tr rest u hu (Or.inr hbm)] at hb ⊢
          obtain ⟨tr2, h1, h2⟩ := ih u b hb
          exact ⟨tr2, List.mem_cons_of_mem _ h1, h2⟩
        | some j =>
          rw [matchLoop_cons_bind thr dets tid tr rest u j hu hth hbm] at hb ⊢
          rcases List.mem_cons.mp hb with h1 | h1
          · refine ⟨boundTrack tid tr (dets.getD j defaultPlayer), ?_, rfl⟩
            rw [h1]
            exact List.mem_cons_self _ _
          · obtain ⟨tr2, h2, h3⟩ := ih (u.erase j) b h1
            exact ⟨tr2, List.mem_cons_of_mem _ h2, h3⟩
      · rw [matchLoop_cons_skip thr dets tid tr rest u hu (Or.inl hth)] at hb ⊢
        obtain ⟨tr2, h1, h2⟩ := ih u b hb
        exact ⟨tr2, List.mem_cons_of_mem _ h1, h2⟩

/-- A track bound this frame ends with a reset entry in the new table. -/
theorem bound_in_table (st : SimpleTracker) (f : FrameDetections) (tid : ℤ)
    (j : ℕ) (hb : (tid, j) ∈ frameBindings st f) :
    ∃ tr2, (tid, tr2) ∈ (SimpleTracker.update st f).1.players ∧
      tr2.lost_frames = 0 := by
  obtain ⟨tr2, h1, h2⟩ := matchLoop_bind_entry st.iou_threshold f.players st.players
    (List.range f.players.length) (tid, j) hb
  have hl := loseStep_spec st.max_lost (trackMatch st f).2.2 (trackMatch st f).1
  have hmm : (tid, tr2) ∈ loseStep st.max_lost (trackMatch st f).2.2
      (trackMatch st f).1 := by
    refine hl.2.2.1 (tid, tr2) h1 ?_
    exact List.mem_map_of_mem Prod.fst hb
  have hplayers : (SimpleTracker.update st f).1.players =
      loseStep st.max_lost (trackMatch st f).2.2 (trackMatch st f).1 ++
        (addNew f.players st.next_id (trackMatch st f).2.1).1 := rfl
  exact ⟨tr2, hplayers ▸ List.mem_append_left _ hmm, h2⟩

/-- C7: per-frame output is exactly the tracks whose unmatched counter is
0; a track unbound for at most the lost-frame limit survives under its
original id with its counter advanced, and if then rematched it reappears
in the output under that id; a track unbound for one frame more than the
limit is removed permanently (its id never returns); and while its counter
is positive a track is absent from the output. -/
theorem tracker_lost_spec (fs0 : List FrameDetections) :
    (∀ (f : FrameDetections) (tid : ℤ),
      ((∃ p ∈ (SimpleTracker.update (runTracker SimpleTracker.defaultInit fs0)
          f).2.players, p.track_id = tid) ↔
        (∃ tr, (tid, tr) ∈ (SimpleTracker.update
            (runTracker SimpleTracker.defaultInit fs0) f).1.players ∧
          tr.lost_frames = 0))) ∧
    (∀ (fs : List FrameDetections) (f : FrameDetections) (tid : ℤ)
      (tr : TrackedPlayer) (j : ℕ),
      (tid, tr) ∈ (runTracker SimpleTracker.defaultInit fs0).players →
      tr.lost_frames = 0 →
      NeverBound tid (runTracker SimpleTracker.defaultInit fs0) fs →
      fs.length ≤ (runTracker SimpleTracker.defaultInit fs0).max_lost →
      (tid, { tr with lost_frames := fs.length }) ∈
        (runTracker (runTracker SimpleTracker.defaultInit fs0) fs).players ∧
      ((tid, j) ∈ frameBindings (runTracker
          (runTracker SimpleTracker.defaultInit fs0) fs) f →
        ∃ p ∈ (SimpleTracker.update (runTracker
            (runTracker SimpleTracker.defaultInit fs0) fs) f).2.players,
          p.track_id = tid)) ∧
    (∀ (fs : List FrameDetections) (tid : ℤ) (tr : TrackedPlayer),
      (tid, tr) ∈ (runTracker SimpleTracker.defaultInit fs0).players →
      tr.lost_frames = 0 →
      NeverBound tid (runTracker SimpleTracker.defaultInit fs0) fs →
      fs.length = (runTracker SimpleTracker.defaultInit fs0).max_lost + 1 →
      tid ∉ (runTracker (runTracker SimpleTracker.defaultInit fs0)
        fs).players.map Prod.fst ∧
      (∀ gs : List FrameDetections,
        tid ∉ (runTracker (runTracker (runTracker SimpleTracker.defaultInit fs0)
          fs) gs).players.map Prod.fst)) ∧
    (∀ (f : FrameDetections) (tid : ℤ) (tr : TrackedPlayer),
      (tid, tr) ∈ (SimpleTracker.update
        (runTracker SimpleTracker.defaultInit fs0) f).1.players →
      0 < tr.lost_frames →
      ∀ p ∈ (SimpleTracker.update
          (runTracker SimpleTracker.defaultInit fs0) f).2.players,
        p.track_id ≠ tid) := by
  have hinv : TrackerInv (runTracker SimpleTracker.defaultInit fs0) :=
    (runTracker_inv fs0 SimpleTracker.defaultInit defaultInit_inv).1
  refine ⟨?_, ?_, ?_, ?_⟩
  · exact fun f tid => output_iff (runTracker SimpleTracker.defaultInit fs0) f hinv tid
  · intro fs f tid tr j hmem hlost hnb hlen
    have hsurv := survive_run fs (runTracker SimpleTracker.defaultInit fs0) tid tr
      hinv hmem hnb (by omega)
    have hzero : tr.lost_frames + fs.length = fs.length := by omega
    rw [hzero] at hsurv
    refine ⟨hsurv, ?_⟩
    intro hbind
    have hinv2 : TrackerInv (runTracker (runTracker SimpleTracker.defaultInit fs0) fs) :=
      (runTracker_inv fs _ hinv).1
    obtain ⟨tr2, h1, h2⟩ := bound_in_table _ f tid j hbind
    exact (output_iff _ f hinv2 tid).mpr ⟨tr2, h1, h2⟩
  · intro fs tid tr hmem hlost hnb hlen
    have hgone := expire_run fs (runTracker SimpleTracker.defaultInit fs0) tid tr
      hinv hmem hnb (by omega)
    refine ⟨hgone, ?_⟩
    intro gs
    have hinv2 : TrackerInv (runTracker (runTracker SimpleTracker.defaultInit fs0) fs) :=
      (runTracker_inv fs _ hinv).1
    have hlt : tid < (runTracker (runTracker SimpleTracker.defaultInit fs0) fs).next_id :=
      lt_of_lt_of_le (hinv.1 (tid, tr) hmem) (runTracker_inv fs _ hinv).2
    exact never_return gs _ tid hinv2 hgone hlt
  · intro f tid tr hmem hpos p hp hpt
    have h := (output_iff (runTracker SimpleTracker.defaultInit fs0) f hinv tid).mp
      ⟨p, hp, hpt⟩
    obtain ⟨tr2, htr2, hl0⟩ := h
    have hinv2 := (update_step_spec (runTracker SimpleTracker.defaultInit fs0) f hinv).1
    have heq : tr = tr2 := entry_unique hinv2.2.1 hmem htr2
    rw [heq] at hpos
    omega

/-- The stored track box and the incoming detection overlap with IoU
exactly 3/10. -/
theorem iou_boxT_boxD : SimpleTracker.iou boxT boxD = 3 / 10 := by
  norm_num [SimpleTracker.iou, boxT, boxD, Detection.area, Detection.w, Detection.h]

/-- The candidate scan over the single detection returns exactly the
threshold value. -/
theorem bestMatch_TD : bestMatch boxT [pD] [0] = (3 / 10, some 0) := by
  unfold bestMatch bmStep
  simp only [List.foldl_cons, List.foldl_nil]
  have hp : (([pD] : List PlayerInfo).getD 0 defaultPlayer).detection = boxD := rfl
  rw [hp, iou_boxT_boxD]
  norm_num

/-- C5 (counterexample): with one track (`boxT`) and one detection (`boxD`)
whose IoU is exactly the default threshold 3/10, the code binds the
detection — the match test is `best_iou >= threshold`, so a maximum IoU
exactly equal to the threshold does produce a binding, contradicting the
claim that no binding occurs at equality. -/
theorem tracker_threshold_counterexample :
    SimpleTracker.iou boxT boxD = 3 / 10 ∧
    stT.iou_threshold = 3 / 10 ∧
    frameBindings stT frameD = [(0, 0)] ∧
    (SimpleTracker.update stT frameD).2.players = [{ pD with track_id := 0 }] := by
  have hth : (3 : ℚ) / 10 ≤ (bestMatch boxT [pD] [0]).1 := by
    rw [bestMatch_TD]
  have hbm2 : (bestMatch boxT [pD] [0]).2 = some 0 := by
    rw [bestMatch_TD]
  have hml2 : matchLoop ((3 : ℚ) / 10) [pD]
      [((0 : ℤ), ({ track_id := 0, player := pT, lost_frames := 0 } : TrackedPlayer))]
      [0] =
      ([(0, boundTrack 0 { track_id := 0, player := pT, lost_frames := 0 } pD)],
       [], [(0, 0)]) := by
    rw [matchLoop_cons_bind ((3 : ℚ) / 10) [pD] 0
      { track_id := 0, player := pT, lost_frames := 0 } [] [0] 0 (by simp) hth hbm2]
    rfl
  refine ⟨iou_boxT_boxD, rfl, ?_, ?_⟩
  · show (matchLoop ((3 : ℚ) / 10) [pD]
      [((0 : ℤ), ({ track_id := 0, player := pT, lost_frames := 0 } : TrackedPlayer))]
      [0]).2.2 = [(0, 0)]
    rw [hml2]
  · show ((loseStep stT.max_lost
        (matchLoop ((3 : ℚ) / 10) [pD]
          [((0 : ℤ), ({ track_id := 0, player := pT, lost_frames := 0 } :
            TrackedPlayer))] [0]).2.2
        (matchLoop ((3 : ℚ) / 10) [pD]
          [((0 : ℤ), ({ track_id := 0, player := pT, lost_frames := 0 } :
            TrackedPlayer))] [0]).1 ++
      (addNew [pD] stT.next_id
        (matchLoop ((3 : ℚ) / 10) [pD]
          [((0 : ℤ), ({ track_id := 0, player := pT, lost_frames := 0 } :
            TrackedPlayer))] [0]).2.1).1).filter
        (fun q => q.2.lost_frames = 0)).map (fun q => q.2.player) =
      [{ pD with track_id := 0 }]
    rw [hml2]
    rfl

/-- C5 (amended): for each track visited in creation order, the scan value
bounds every unmatched detection's IoU against the track; the detection
with the maximum IoU is bound to the track precisely when that maximum is
at least the (positive) threshold — at exact equality binding does occur —
and on binding the track's unmatched counter resets to 0 and the detection
leaves the pool; when the maximum is below the threshold the track and
pool are unchanged. -/
theorem matching_step_spec (thr : ℚ) (dets : List PlayerInfo) (tid : ℤ)
    (tr : TrackedPlayer) (rest : List (ℤ × TrackedPlayer)) (u : List ℕ)
    (hthr : 0 < thr) (hu : u ≠ []) :
    (∀ i ∈ u, SimpleTracker.iou tr.player.detection
      (dets.getD i defaultPlayer).detection ≤ (bestMatch tr.player.detection dets u).1) ∧
    (thr ≤ (bestMatch tr.player.detection dets u).1 →
      ∃ j ∈ u, (bestMatch tr.player.detection dets u).2 = some j ∧
        SimpleTracker.iou tr.player.detection (dets.getD j defaultPlayer).detection =
          (bestMatch tr.player.detection dets u).1 ∧
        (boundTrack tid tr (dets.getD j defaultPlayer)).lost_frames = 0 ∧
        matchLoop thr dets ((tid, tr) :: rest) u =
          ((tid, boundTrack tid tr (dets.getD j defaultPlayer)) ::
            (matchLoop thr dets rest (u.erase j)).1,
           (matchLoop thr dets rest (u.erase j)).2.1,
           (tid, j) :: (matchLoop thr dets rest (u.erase j)).2.2)) ∧
    ((bestMatch tr.player.detection dets u).1 < thr →
      matchLoop thr dets ((tid, tr) :: rest) u =
        ((tid, tr) :: (matchLoop thr dets rest u).1,
         (matchLoop thr dets rest u).2.1, (matchLoop thr dets rest u).2.2)) := by
  have hb := bestMatch_spec tr.player.detection dets u
  refine ⟨hb.1, ?_, ?_⟩
  · intro hth
    obtain ⟨j, hj, hj2, hj3⟩ := hb.2.2 thr hthr hth
    exact ⟨j, hj, hj2, hj3.symm, rfl,
      matchLoop_cons_bind thr dets tid tr rest u j hu hth hj2⟩
  · intro hth
    exact matchLoop_cons_skip thr dets tid tr rest u hu (Or.inl (not_le.mpr hth))

/-- C5 (witness): the amended matching-step theorem evaluated on the
concrete exactly-at-threshold instance. -/
theorem matching_step_spec_witness :
    ∃ j ∈ ([0] : List ℕ),
      (bestMatch ({ track_id := 0, player := pT, lost_frames := 0 } :
        TrackedPlayer).player.detection [pD] [0]).2 = some j ∧
      SimpleTracker.iou ({ track_id := 0, player := pT, lost_frames := 0 } :
        TrackedPlayer).player.detection (([pD] : List PlayerInfo).getD j
          defaultPlayer).detection =
        (bestMatch ({ track_id := 0, player := pT, lost_frames := 0 } :
          TrackedPlayer).player.detection [pD] [0]).1 ∧
      (boundTrack 0 { track_id := 0, player := pT, lost_frames := 0 }
        (([pD] : List PlayerInfo).getD j defaultPlayer)).lost_frames = 0 ∧
      matchLoop (3 / 10) [pD]
        [((0 : ℤ), ({ track_id := 0, player := pT, lost_frames := 0 } :
          TrackedPlayer))] [0] =
        ((0, boundTrack 0 { track_id := 0, player := pT, lost_frames := 0 }
            (([pD] : List PlayerInfo).getD j defaultPlayer)) ::
          (matchLoop (3 / 10) [pD] [] (([0] : List ℕ).erase j)).1,
         (matchLoop (3 / 10) [pD] [] (([0] : List ℕ).erase j)).2.1,
         (0, j) :: (matchLoop (3 / 10) [pD] [] (([0] : List ℕ).erase j)).2.2) := by
  refine (matching_step_spec (3 / 10) [pD] 0
    { track_id := 0, player := pT, lost_frames := 0 } [] [0]
    (by norm_num) (by simp)).2.1 ?_
  show (3 : ℚ) / 10 ≤ (bestMatch boxT [pD] [0]).1
  rw [bestMatch_TD]

/-- A frame with no detections produces no bindings. -/
theorem frameBindings_empty (st : SimpleTracker) :
    frameBindings st emptyFrame = [] := by
  show (matchLoop st.iou_threshold [] st.players (List.range 0)).2.2 = []
  cases hp : st.players with
  | nil => rfl
  | cons q t =>
    obtain ⟨tid, tr⟩ := q
    rw [show (List.range 0 : List ℕ) = [] from rfl, matchLoop_cons_break]

/-- No track is ever bound over a run of detection-free frames. -/
theorem neverBound_empty (tid : ℤ) :
    ∀ (k : ℕ) (st : SimpleTracker),
    NeverBound tid st (List.replicate k emptyFrame) := by
  intro k
  induction k with
  | zero => intro st; trivial
  | succ n ih =>
    intro st
    refine ⟨?_, ih (SimpleTracker.update st emptyFrame).1⟩
    rw [frameBindings_empty]
    simp

/-- The first frame's run leaves exactly track 0 in the table. -/
theorem stA_players : stA.players = [((0 : ℤ), trA0)] := rfl

/-- The stored detection of track 0 after an unmatched frame is `boxA`. -/
theorem iou_boxA_self : SimpleTracker.iou boxA boxA = 1 :=
  iou_self_proper boxA (by norm_num [boxA]) (by norm_num [boxA])

/-- The candidate scan of track 0 against its own reappearing detection. -/
theorem bestMatch_AA : bestMatch boxA [pA] [0] = (1, some 0) := by
  unfold bestMatch bmStep
  simp only [List.foldl_cons, List.foldl_nil]
  have hp : (([pA] : List PlayerInfo).getD 0 defaultPlayer).detection = boxA := rfl
  rw [hp, iou_boxA_self]
  norm_num

/-- C7 (witness): the lost-track theorem evaluated on a concrete run — a
track created on the first frame, invisible for one empty frame (counter
1, within the limit 15), is rebound to the same detection and reappears in
the output under id 0; the same track left unbound for 16 straight empty
frames is gone from the table. -/
theorem tracker_lost_spec_witness :
    (((0 : ℤ), { trA0 with
        lost_frames := ([emptyFrame] : List FrameDetections).length }) ∈
      (runTracker (runTracker SimpleTracker.defaultInit [frameA])
        [emptyFrame]).players) ∧
    (∃ p ∈ (SimpleTracker.update
        (runTracker (runTracker SimpleTracker.defaultInit [frameA]) [emptyFrame])
        frameA).2.players, p.track_id = 0) ∧
    ((0 : ℤ) ∉ (runTracker (runTracker SimpleTracker.defaultInit [frameA])
      (List.replicate 16 emptyFrame)).players.map Prod.fst) := by
  have hmemA : ((0 : ℤ), trA0) ∈
      (runTracker SimpleTracker.defaultInit [frameA]).players := by
    rw [show (runTracker SimpleTracker.defaultInit [frameA]).players =
      [((0 : ℤ), trA0)] from rfl]
    exact List.mem_singleton_self _
  have hnb1 : NeverBound 0 (runTracker SimpleTracker.defaultInit [frameA])
      [emptyFrame] := by
    refine ⟨?_, trivial⟩
    rw [frameBindings_empty]
    simp
  have hlen1 : ([emptyFrame] : List FrameDetections).length ≤
      (runTracker SimpleTracker.defaultInit [frameA]).max_lost := by
    show (1 : ℕ) ≤ 15
    norm_num
  have hth : (3 : ℚ) / 10 ≤ (bestMatch boxA [pA] [0]).1 := by
    rw [bestMatch_AA]
    norm_num
  have hbm2 : (bestMatch boxA [pA] [0]).2 = some 0 := by
    rw [bestMatch_AA]
  have hmlA := matchLoop_cons_bind ((3 : ℚ) / 10) [pA] 0 trA1 [] [0] 0
    (by simp) hth hbm2
  have hbindA : ((0 : ℤ), (0 : ℕ)) ∈ frameBindings
      (runTracker (runTracker SimpleTracker.defaultInit [frameA]) [emptyFrame])
      frameA := by
    show ((0 : ℤ), (0 : ℕ)) ∈
      (matchLoop ((3 : ℚ) / 10) [pA] [((0 : ℤ), trA1)] [0]).2.2
    rw [hmlA]
    exact List.mem_cons_self _ _
  have hnb16 : NeverBound 0 (runTracker SimpleTracker.defaultInit [frameA])
      (List.replicate 16 emptyFrame) :=
    neverBound_empty 0 16 _
  have hlen16 : (List.replicate 16 emptyFrame).length =
      (runTracker SimpleTracker.defaultInit [frameA]).max_lost + 1 := by
    show (16 : ℕ) = 15 + 1
    norm_num
  have W := tracker_lost_spec [frameA]
  exact ⟨(W.2.1 [emptyFrame] frameA 0 trA0 0 hmemA rfl hnb1 hlen1).1,
    (W.2.1 [emptyFrame] frameA 0 trA0 0 hmemA rfl hnb1 hlen1).2 hbindA,
    (W.2.2.1 (List.replicate 16 emptyFrame) 0 trA0 hmemA rfl hnb16 hlen16).1⟩

end VideoML
